import Mathlib

/-!
Shallow embedding of the nozzle contour design and performance engine of the
`cea_analyzer` package (files `src/cea_analyzer/propulsion/nozzle/{moc,base,
conical,bell,rao,tic,moc_nozzle,performance}.py` and `src/cea_analyzer/util.py`),
together with theorems settling the claims about it.

Embedding conventions:
* Python floats are modelled by real numbers (exact real semantics).  A
  division whose vanishing denominator makes Python raise
  `ZeroDivisionError` on a reachable path is guarded explicitly: the Newton
  update of `util.mach_from_area_ratio` returns `none` when one of its
  denominators is zero.  Elsewhere Lean's total division (x / 0 = 0) is
  used and noted where it matters.
* numpy arrays of coordinates are modelled as a length together with an
  index function `ℕ → ℝ` (values beyond the length are irrelevant junk).
* `np.linalg.solve` on a 4x4 system is modelled by an explicit Cramer-rule
  solver returning `none` exactly when the matrix is singular (the situation
  in which LAPACK/numpy raise `LinAlgError`).
* `scipy.optimize.fsolve`, an external black-box root finder, is modelled by
  its contract as an exact root selector (a choice of a root `M ≥ 1` when one
  exists); `scipy.interpolate.CubicSpline` is modelled as a parameter of the
  TIC generator, together with its documented validation that the sample
  x-coordinates be strictly increasing (else `ValueError`, modelled as `none`).
* Functions that can raise on some inputs return `Option`/`Except`.
-/

open Real

open scoped Classical

noncomputable section

namespace CeaAnalyzer

/-- `np.radians(d)`: degrees to radians. -/
def radians (d : ℝ) : ℝ := d * Real.pi / 180

/-- `np.linspace a b n` sampled at index `i`: `a + (b - a) * i / (n - 1)`. -/
def linF (a b : ℝ) (n : ℕ) (i : ℕ) : ℝ := a + (b - a) * i / ((n : ℝ) - 1)

/-- An ordered wall contour `(x[], r[])` of a given number of points,
modelled as index functions. -/
structure Contour where
  len : ℕ
  x : ℕ → ℝ
  r : ℕ → ℝ

/-- `np.argmin` over the first `n` entries of `r`: index of the first
occurrence of the minimum. -/
def argminIdx (r : ℕ → ℝ) (n : ℕ) : ℕ :=
  (List.range n).foldl (fun best i => if r i < r best then i else best) 0

/-- The strict-increase validation that `scipy.interpolate.CubicSpline`
performs on its sample x-coordinates. -/
def strictIncrOn (x : ℕ → ℝ) (n : ℕ) : Prop := ∀ i, i + 1 < n → x i < x (i + 1)

/-- Concatenation of two index-function arrays, the first of length `n1`. -/
def appendF (n1 : ℕ) (f g : ℕ → ℝ) : ℕ → ℝ := fun i => if i < n1 then f i else g (i - n1)

/-- Determinant of a 4x4 matrix with entries given row by row
(full cofactor expansion along the first row). -/
def det4 (a b c d e f g h i j k l m n o p : ℝ) : ℝ :=
  a * (f * (k * p - l * o) - g * (j * p - l * n) + h * (j * o - k * n)) -
  b * (e * (k * p - l * o) - g * (i * p - l * m) + h * (i * o - k * m)) +
  c * (e * (j * p - l * n) - f * (i * p - l * m) + h * (i * n - j * m)) -
  d * (e * (j * o - k * n) - f * (i * o - k * m) + g * (i * n - j * m))

/-- `np.linalg.solve` on a 4x4 system `A·v = rhs`, by Cramer's rule;
`none` exactly when the matrix is singular (numpy raises `LinAlgError`
there).  Rows of `A` are `(a b c d)`, `(e f g h)`, `(i j k l)`, `(m n o p)`
and the right-hand side is `(b0, b1, b2, b3)`. -/
def solve4 (a b c d e f g h i j k l m n o p b0 b1 b2 b3 : ℝ) : Option (ℝ × ℝ × ℝ × ℝ) :=
  let D := det4 a b c d e f g h i j k l m n o p
  if D = 0 then none
  else
    some (det4 b0 b c d b1 f g h b2 j k l b3 n o p / D,
          det4 a b0 c d e b1 g h i b2 k l m b3 o p / D,
          det4 a b b0 d e f b1 h i j b2 l m n b3 p / D,
          det4 a b c b0 e f g b1 i j k b2 m n o b3 / D)

theorem solve4_eq_none_iff (a b c d e f g h i j k l m n o p b0 b1 b2 b3 : ℝ) :
    solve4 a b c d e f g h i j k l m n o p b0 b1 b2 b3 = none ↔
      det4 a b c d e f g h i j k l m n o p = 0 := by
  unfold solve4
  by_cases hD : det4 a b c d e f g h i j k l m n o p = 0 <;> simp [hD]

/-- Cramer's rule is correct: a solution returned by `solve4` satisfies each
of the four row equations. -/
theorem solve4_spec (a b c d e f g h i j k l m n o p b0 b1 b2 b3 : ℝ)
    (v : ℝ × ℝ × ℝ × ℝ)
    (hv : solve4 a b c d e f g h i j k l m n o p b0 b1 b2 b3 = some v) :
    a * v.1 + b * v.2.1 + c * v.2.2.1 + d * v.2.2.2 = b0 ∧
    e * v.1 + f * v.2.1 + g * v.2.2.1 + h * v.2.2.2 = b1 ∧
    i * v.1 + j * v.2.1 + k * v.2.2.1 + l * v.2.2.2 = b2 ∧
    m * v.1 + n * v.2.1 + o * v.2.2.1 + p * v.2.2.2 = b3 := by
  unfold solve4 at hv
  by_cases hD : det4 a b c d e f g h i j k l m n o p = 0
  · simp [hD] at hv
  · simp only [hD, if_false, Option.some.injEq] at hv
    subst hv
    have key1 : a * det4 b0 b c d b1 f g h b2 j k l b3 n o p +
        b * det4 a b0 c d e b1 g h i b2 k l m b3 o p +
        c * det4 a b b0 d e f b1 h i j b2 l m n b3 p +
        d * det4 a b c b0 e f g b1 i j k b2 m n o b3 =
        b0 * det4 a b c d e f g h i j k l m n o p := by unfold det4; ring
    have key2 : e * det4 b0 b c d b1 f g h b2 j k l b3 n o p +
        f * det4 a b0 c d e b1 g h i b2 k l m b3 o p +
        g * det4 a b b0 d e f b1 h i j b2 l m n b3 p +
        h * det4 a b c b0 e f g b1 i j k b2 m n o b3 =
        b1 * det4 a b c d e f g h i j k l m n o p := by unfold det4; ring
    have key3 : i * det4 b0 b c d b1 f g h b2 j k l b3 n o p +
        j * det4 a b0 c d e b1 g h i b2 k l m b3 o p +
        k * det4 a b b0 d e f b1 h i j b2 l m n b3 p +
        l * det4 a b c b0 e f g b1 i j k b2 m n o b3 =
        b2 * det4 a b c d e f g h i j k l m n o p := by unfold det4; ring
    have key4 : m * det4 b0 b c d b1 f g h b2 j k l b3 n o p +
        n * det4 a b0 c d e b1 g h i b2 k l m b3 o p +
        o * det4 a b b0 d e f b1 h i j b2 l m n b3 p +
        p * det4 a b c b0 e f g b1 i j k b2 m n o b3 =
        b3 * det4 a b c d e f g h i j k l m n o p := by unfold det4; ring
    refine ⟨?_, ?_, ?_, ?_⟩ <;> simp only
    · field_simp
      linear_combination key1
    · field_simp
      linear_combination key2
    · field_simp
      linear_combination key3
    · field_simp
      linear_combination key4

/-! ## Gas dynamics relations (`propulsion/nozzle/moc.py` and `util.py`) -/

namespace Moc

/-- `moc.prandtl_meyer(M, gamma)`: the Prandtl-Meyer function, in radians.
`ν(M) = sqrt((γ+1)/(γ−1)) * arctan(sqrt((γ−1)/(γ+1)*(M²−1))) − arctan(sqrt(M²−1))`. -/
def prandtl_meyer (M gamma : ℝ) : ℝ :=
  Real.sqrt ((gamma + 1) / (gamma - 1)) *
      Real.arctan (Real.sqrt ((gamma - 1) / (gamma + 1) * (M ^ 2 - 1))) -
    Real.arctan (Real.sqrt (M ^ 2 - 1))

/-- `moc.inverse_prandtl_meyer(nu_target, gamma)`: inverts `ν(M) = nu_target`
with `scipy.optimize.fsolve` started at `M₀ = 1 + ν/π`.  The black-box root
finder is modelled by its contract: it returns a root `M ≥ 1` when one
exists, and otherwise (no root reachable) its initial guess. -/
def inverse_prandtl_meyer (nu_target gamma : ℝ) : ℝ :=
  if h : ∃ M : ℝ, 1 ≤ M ∧ prandtl_meyer M gamma = nu_target then h.choose
  else 1 + nu_target / Real.pi

/-- The isentropic area-Mach relation
`A/A* = (1/M)*[(2/(γ+1))*(1 + (γ−1)/2*M²)]^[(γ+1)/(2(γ−1))]`
that `moc.mach_from_area_ratio` inverts. -/
def areaOfMach (M gamma : ℝ) : ℝ :=
  (1 / M) * ((2 / (gamma + 1)) * (1 + 0.5 * (gamma - 1) * M ^ 2)) ^
    ((gamma + 1) / (2 * (gamma - 1)))

/-- `moc.mach_from_area_ratio(AR, gamma)`: solves `A/A* = AR` for the
supersonic branch via `scipy.optimize.fsolve` (start guess `M = 2`), modelled
by its contract as returning a root `M ≥ 1` when one exists, and otherwise
the initial guess `2`. -/
def mach_from_area_ratio (AR gamma : ℝ) : ℝ :=
  if h : ∃ M : ℝ, 1 ≤ M ∧ areaOfMach M gamma = AR then h.choose else 2

end Moc

/-- The maximal Prandtl-Meyer angle `ν_max(γ) = (sqrt((γ+1)/(γ−1)) − 1)·π/2`
(stated in the specification as the supremum of the invertible range). -/
def nu_max (gamma : ℝ) : ℝ := (Real.sqrt ((gamma + 1) / (gamma - 1)) - 1) * (Real.pi / 2)

namespace Util

/-- One Newton-Raphson update of `util.mach_from_area_ratio`: the residual
`f` of the area-Mach relation and the code's `df` (as written in the source,
including its sign), giving `M − f/df`.  `none` models the
`ZeroDivisionError` Python raises when a denominator of the update is zero:
`1.0/M` at `M = 0`, `M**2/term` at `term = 0`, or `f/df` at `df = 0`. -/
def machNRStep (gamma AR M : ℝ) : Option ℝ :=
  let term := 1 + 0.5 * (gamma - 1) * M * M
  let f := (1 / M) * (2 / (gamma + 1) * term) ^ ((gamma + 1) / (2 * (gamma - 1))) - AR
  let df := (1 / M ^ 2) * (2 / (gamma + 1) * term) ^ ((gamma + 1) / (2 * (gamma - 1))) *
    (1 - (gamma + 1) / 2 * M ^ 2 / term)
  if M = 0 ∨ term = 0 ∨ df = 0 then none else some (M - f / df)

/-- The iteration loop of `util.mach_from_area_ratio`, with remaining fuel
(`max_iterations = 50`): returns the update and `true` when
`|M_new − M| < 1e-8` triggers the early return, and the final estimate
with `false` on fuel exhaustion (the code then logs a non-fatal convergence
warning and returns that estimate); `none` propagates a
`ZeroDivisionError` raised by an update. -/
def machNRLoop (gamma AR : ℝ) : ℕ → ℝ → Option (ℝ × Bool)
  | 0, M => some (M, false)
  | fuel + 1, M =>
    match machNRStep gamma AR M with
    | none => none
    | some M_new =>
      if |M_new - M| < 1e-8 then some (M_new, true) else machNRLoop gamma AR fuel M_new

/-- `util.mach_from_area_ratio(area_ratio, gamma)`: raises `ValueError` for
`area_ratio < 1`, otherwise runs 50 Newton-Raphson iterations from the
initial guess `1 + 0.8·log10(AR)` (for `AR > 5`) or `1 + 0.5·(AR − 1)`.
The `Bool` records whether the tolerance check converged (on `false` the
code logs a warning and returns the last estimate); the iteration itself
can raise `ZeroDivisionError`, which no handler catches. -/
def mach_from_area_ratio (area_ratio gamma : ℝ) : Except String (ℝ × Bool) :=
  if area_ratio < 1 then .error "Area ratio must be >= 1.0"
  else
    let M0 := if area_ratio > 5 then 1 + 0.8 * Real.logb 10 area_ratio
      else 1 + 0.5 * (area_ratio - 1)
    match machNRLoop gamma area_ratio 50 M0 with
    | none => .error "ZeroDivisionError"
    | some v => .ok v

end Util

/-! ## Thermochemical records and throat properties (`propulsion/nozzle/base.py`) -/

/-- A CEA thermochemical record: the dictionary keys that
`get_throat_properties` and the generators look up, each possibly absent. -/
structure CeaData where
  gamma : Option ℝ := none
  GAMMAs : Option ℝ := none
  Pc_bar : Option ℝ := none
  AeAt : Option ℝ := none
  T_chamber : Option ℝ := none
  At : Option ℝ := none
  nozzle_type : Option String := none

/-- Derived throat properties (recomputed on every call). -/
structure ThroatProps where
  gamma : ℝ
  p_c : ℝ
  area_ratio : ℝ
  t_c : ℝ
  m_exit : ℝ

/-- `base.get_throat_properties(cea_data)`: defaults `gamma = 1.2` (or the
`GAMMAs` key when only that is present), `Pc = 50 bar`, `Ae/At = 8.0`,
`T_chamber = 3500 K`; the exit Mach comes from `moc.mach_from_area_ratio`. -/
def get_throat_properties (d : CeaData) : ThroatProps :=
  let gamma := match d.gamma with
    | some g => g
    | none => match d.GAMMAs with
      | some g => g
      | none => 1.2
  let p_c := d.Pc_bar.getD 50 * 1e5
  let area_ratio := d.AeAt.getD 8
  let t_c := d.T_chamber.getD 3500
  { gamma := gamma, p_c := p_c, area_ratio := area_ratio, t_c := t_c,
    m_exit := Moc.mach_from_area_ratio area_ratio gamma }

/-- The throat-radius resolution repeated in every generator: an explicit
`R_throat` wins; else `sqrt(At/π)` when the record has a throat area; else
the default `0.05` m. -/
def resolveRthroat (d : CeaData) (R : Option ℝ) : ℝ :=
  match R with
  | some Rt => Rt
  | none => match d.At with
    | some At => Real.sqrt (At / Real.pi)
    | none => 0.05

/-! ## The MOC marching scheme (`generate_moc_contour` in `moc.py`) -/

namespace Moc

/-- Maximum turning angle `θ_max = ν_exit / 2` of the characteristic fan. -/
def theta_max (area_ratio gamma : ℝ) : ℝ :=
  prandtl_meyer (mach_from_area_ratio area_ratio gamma) gamma / 2

/-- The fan discretization `theta = np.linspace(0, θ_max, N)`. -/
def thetaF (area_ratio gamma : ℝ) (N : ℕ) (i : ℕ) : ℝ :=
  linF 0 (theta_max area_ratio gamma) N i

/-- Local Mach number `M_i` from `ν_i = 2·θ_i`. -/
def machF (area_ratio gamma : ℝ) (N : ℕ) (i : ℕ) : ℝ :=
  inverse_prandtl_meyer (2 * thetaF area_ratio gamma N i) gamma

/-- Mach angle `μ_i = arcsin(1 / M_i)`. -/
def muF (area_ratio gamma : ℝ) (N : ℕ) (i : ℕ) : ℝ :=
  Real.arcsin (1 / machF area_ratio gamma N i)

/-- Wall-step length `Δs_i = R_throat·(θ_i − θ_{i−1}) / tan(μ_i)`. -/
def dsF (area_ratio gamma : ℝ) (N : ℕ) (R_throat : ℝ) (i : ℕ) : ℝ :=
  R_throat * (thetaF area_ratio gamma N i - thetaF area_ratio gamma N (i - 1)) /
    Real.tan (muF area_ratio gamma N i)

/-- Marched wall abscissae: `x_0 = 0`, `x_i = x_{i−1} + Δs_i·cos(θ_i)`. -/
def x_wall (area_ratio gamma : ℝ) (N : ℕ) (R_throat : ℝ) : ℕ → ℝ
  | 0 => 0
  | i + 1 => x_wall area_ratio gamma N R_throat i +
      dsF area_ratio gamma N R_throat (i + 1) * Real.cos (thetaF area_ratio gamma N (i + 1))

/-- Marched wall radii: `r_0 = R_throat`, `r_i = r_{i−1} + Δs_i·sin(θ_i)`;
note that no exit-radius correction is applied afterwards. -/
def r_wall (area_ratio gamma : ℝ) (N : ℕ) (R_throat : ℝ) : ℕ → ℝ
  | 0 => R_throat
  | i + 1 => r_wall area_ratio gamma N R_throat i +
      dsF area_ratio gamma N R_throat (i + 1) * Real.sin (thetaF area_ratio gamma N (i + 1))

/-- `moc.generate_moc_contour(area_ratio, gamma, N, R_throat)`. -/
def generate_moc_contour (area_ratio gamma : ℝ) (N : ℕ) (R_throat : ℝ) : Contour :=
  ⟨N, x_wall area_ratio gamma N R_throat, r_wall area_ratio gamma N R_throat⟩

end Moc

/-! ## The five contour generators -/

/-- `conical.conical_nozzle(cea_data, half_angle=15, R_throat=None, N=100)`:
straight wall `r(x) = R_throat + x·tan(half_angle)`, with `r[0] = R_throat`
assigned first and `r[-1] = R_exit` assigned last (so the exit assignment
wins at overlapping indices, as in numpy). -/
def conical_nozzle (d : CeaData) (half_angle : ℝ) (R : Option ℝ) (N : ℕ) : Contour :=
  let props := get_throat_properties d
  let area_ratio := props.area_ratio
  let R_throat := resolveRthroat d R
  let R_exit := R_throat * Real.sqrt area_ratio
  let half_angle_rad := radians half_angle
  let L_nozzle := (R_exit - R_throat) / Real.tan half_angle_rad
  ⟨N, linF 0 L_nozzle N, fun i =>
    if i = N - 1 then R_exit
    else if i = 0 then R_throat
    else R_throat + linF 0 L_nozzle N i * Real.tan half_angle_rad⟩

/-- The initial-angle lookup of `bell.bell_nozzle` (radians). -/
def bell_theta_initial (percent_bell : ℝ) : ℝ :=
  if percent_bell ≤ 60 then radians 40
  else if percent_bell ≤ 75 then radians 35
  else if percent_bell ≤ 85 then radians 30
  else radians 25

/-- The exit-angle lookup of `bell.bell_nozzle` (radians). -/
def bell_theta_exit (percent_bell : ℝ) : ℝ :=
  if percent_bell ≤ 60 then radians 15
  else if percent_bell ≤ 75 then radians 12
  else if percent_bell ≤ 85 then radians 8
  else radians 5

/-- `bell.bell_nozzle(cea_data, R_throat=None, N=100, percent_bell=80)`:
cubic `r(x) = a·x³ + b·x² + c·x + d` through
`r(0)=R_throat, r(L)=R_exit, r'(0)=tan(θ_init), r'(L)=tan(θ_exit)` obtained
from `np.linalg.solve`; `none` models the `LinAlgError` raised when the
system is singular (which happens at `L_bell = 0`).  The first and last
radii are hard-set afterwards. -/
def bell_nozzle (d : CeaData) (R : Option ℝ) (N : ℕ) (percent_bell : ℝ) : Option Contour :=
  let props := get_throat_properties d
  let area_ratio := props.area_ratio
  let R_throat := resolveRthroat d R
  let R_exit := R_throat * Real.sqrt area_ratio
  let L_conical := (R_exit - R_throat) / Real.tan (radians 15)
  let L_bell := L_conical * (percent_bell / 100)
  let theta_initial := bell_theta_initial percent_bell
  let theta_exit := bell_theta_exit percent_bell
  match solve4 0 0 0 1
      (L_bell ^ 3) (L_bell ^ 2) L_bell 1
      0 0 1 0
      (3 * L_bell ^ 2) (2 * L_bell) 1 0
      R_throat R_exit (Real.tan theta_initial) (Real.tan theta_exit) with
  | none => none
  | some (ca, cb, cc, cd) => some
    ⟨N, linF 0 L_bell N, fun i =>
      if i = N - 1 then R_exit
      else if i = 0 then R_throat
      else
        let xi := linF 0 L_bell N i
        ca * xi ^ 3 + cb * xi ^ 2 + cc * xi + cd⟩

/-- `rao.rao_optimum_nozzle(cea_data, R_throat=None, N=100, theta_n=30,
theta_e=7)`: cubic through `r(0)=R_throat, r'(0)=tan(θ_n·0.5),
r(L)=R_exit, r'(L)=tan(θ_e)` with `L = 0.8·L_conical(15°)`, solved by
`np.linalg.solve` (row order as in the source); endpoints hard-set. -/
def rao_optimum_nozzle (d : CeaData) (R : Option ℝ) (N : ℕ) (theta_n theta_e : ℝ) :
    Option Contour :=
  let props := get_throat_properties d
  let area_ratio := props.area_ratio
  let R_throat := resolveRthroat d R
  let R_exit := R_throat * Real.sqrt area_ratio
  let theta_n_rad := radians theta_n
  let theta_e_rad := radians theta_e
  let L_conical := (R_exit - R_throat) / Real.tan (radians 15)
  let L_nozzle := 0.8 * L_conical
  let m_start := Real.tan (theta_n_rad * 0.5)
  let m_end := Real.tan theta_e_rad
  match solve4 0 0 0 1
      0 0 1 0
      (L_nozzle ^ 3) (L_nozzle ^ 2) L_nozzle 1
      (3 * L_nozzle ^ 2) (2 * L_nozzle) 1 0
      R_throat m_start R_exit m_end with
  | none => none
  | some (ca, cb, cc, cd) => some
    ⟨N, linF 0 L_nozzle N, fun i =>
      if i = N - 1 then R_exit
      else if i = 0 then R_throat
      else
        let xi := linF 0 L_nozzle N i
        ca * xi ^ 3 + cb * xi ^ 2 + cc * xi + cd⟩

/-- `moc_nozzle.moc_nozzle(cea_data, R_throat=None, N=30, nu_max=None)`:
delegates to `generate_moc_contour` (the locally computed `nu_max` is not
passed on in the source, so it does not influence the output). -/
def moc_nozzle (d : CeaData) (R : Option ℝ) (N : ℕ) : Contour :=
  let props := get_throat_properties d
  let area_ratio := props.area_ratio
  let gamma := props.gamma
  let R_throat := resolveRthroat d R
  Moc.generate_moc_contour area_ratio gamma N R_throat

/-- `tic.truncated_ideal_contour(cea_data, R_throat=None, N=100,
truncation_factor=0.8)`: truncates the MOC baseline and resamples it with
`scipy.interpolate.CubicSpline`, modelled as the parameter `spline`;
`none` models the `ValueError` CubicSpline raises when the baseline
x-coordinates are not strictly increasing.  The throat and exit radii are
hard-set after resampling. -/
def truncated_ideal_contour (spline : Contour → ℝ → ℝ) (d : CeaData) (R : Option ℝ)
    (N : ℕ) (truncation_factor : ℝ) : Option Contour :=
  let props := get_throat_properties d
  let area_ratio := props.area_ratio
  let gamma := props.gamma
  let R_throat := resolveRthroat d R
  let R_exit := R_throat * Real.sqrt area_ratio
  let ideal := Moc.generate_moc_contour area_ratio gamma N R_throat
  if strictIncrOn ideal.x ideal.len then
    let L_ideal := ideal.x (N - 1)
    let L_truncated := L_ideal * truncation_factor
    some ⟨N, linF 0 L_truncated N, fun i =>
      if i = 0 then R_throat
      else if i = N - 1 then R_exit
      else spline ideal (linF 0 L_truncated N i)⟩
  else none

/-! ## Inlet section builder (`base.add_inlet_section`) -/

/-- `base.add_inlet_section(x, r, R_throat, chamber_radius_ratio=2.5,
chamber_length_ratio=3.0, N_inlet=40)`: cylindrical chamber
(`N_inlet//4` points on `[-L, -L/2]`), cubic-Hermite converging section
(`N_inlet` points on `[-L/2, 0]`), then plain concatenation
`[chamber, converging, original]` — the source removes no duplicate
boundary points. -/
def add_inlet_section (c : Contour) (R_throat chamber_radius_ratio chamber_length_ratio : ℝ)
    (N_inlet : ℕ) : Contour :=
  let R_chamber := R_throat * chamber_radius_ratio
  let L_chamber := R_throat * chamber_length_ratio
  let Nch := N_inlet / 4
  let x_chamber := linF (-L_chamber) (-L_chamber / 2) Nch
  let r_chamber : ℕ → ℝ := fun _ => R_chamber
  let x_conv := linF (-L_chamber / 2) 0 N_inlet
  let s : ℕ → ℝ := fun i => (x_conv i + L_chamber / 2) / (L_chamber / 2)
  let r_conv : ℕ → ℝ := fun i =>
    R_chamber * (1 - 3 * s i ^ 2 + 2 * s i ^ 3) + R_throat * (3 * s i ^ 2 - 2 * s i ^ 3)
  ⟨Nch + N_inlet + c.len,
   appendF Nch x_chamber (appendF N_inlet x_conv c.x),
   appendF Nch r_chamber (appendF N_inlet r_conv c.r)⟩

/-! ## Performance evaluator (`propulsion/nozzle/performance.py`) -/

/-- The performance report returned by `calculate_performance`. -/
structure PerfReport where
  area_ratio : ℝ
  pressure_ratio : ℝ
  thrust_coefficient : ℝ
  ideal_thrust_coefficient : ℝ
  discharge_coefficient : ℝ
  surface_area : ℝ
  nozzle_efficiency : ℝ
  divergence_loss_factor : ℝ
  divergence_angle_deg : ℝ
  length_to_throat_ratio : ℝ
  exit_mach_number : ℝ

/-- Least-squares slope of `np.polyfit(x, r, 1)` over indices `[lo, n)`. -/
def polyfitSlope (x r : ℕ → ℝ) (lo n : ℕ) : ℝ :=
  let m : ℝ := ((n - lo : ℕ) : ℝ)
  let sx := ∑ i ∈ Finset.Ico lo n, x i
  let sy := ∑ i ∈ Finset.Ico lo n, r i
  let sxy := ∑ i ∈ Finset.Ico lo n, x i * r i
  let sxx := ∑ i ∈ Finset.Ico lo n, x i ^ 2
  (m * sxy - sx * sy) / (m * sxx - sx ^ 2)

/-- Whether the first character list starts the second. -/
def charsStart : List Char → List Char → Bool
  | [], _ => true
  | _ :: _, [] => false
  | a :: as, b :: bs => a == b && charsStart as bs

/-- Whether the first character list occurs somewhere inside the second. -/
def charsInside (nd : List Char) : List Char → Bool
  | [] => charsStart nd []
  | h :: t => charsStart nd (h :: t) || charsInside nd t

/-- Python's `needle in haystack` substring test. -/
def pyIn (needle haystack : String) : Bool := charsInside needle.toList haystack.toList

/-- `performance.calculate_performance(cea_data, nozzle_coordinates)`. -/
def calculate_performance (d : CeaData) (c : Contour) : PerfReport :=
  let props := get_throat_properties d
  let gamma := props.gamma
  let p_c := props.p_c
  let m_exit := props.m_exit
  let N := c.len
  let x := c.x
  let r := c.r
  let throat_idx := argminIdx r N
  let r_exit := r (N - 1)
  let x_throat := x throat_idx
  let x_exit := x (N - 1)
  let r_throat := max (r throat_idx) 1e-6
  let A_throat := Real.pi * r_throat ^ 2
  let A_exit := Real.pi * r_exit ^ 2
  let area_ratio := A_exit / A_throat
  let p_ratio := (1 + (gamma - 1) / 2 * m_exit ^ 2) ^ (-gamma / (gamma - 1))
  let p_exit := p_c * p_ratio
  let C_f_ideal := Real.sqrt ((2 * gamma ^ 2 / (gamma - 1)) *
    (2 / (gamma + 1)) ^ ((gamma + 1) / (gamma - 1)) *
    (1 - (p_exit / p_c) ^ ((gamma - 1) / gamma)))
  let exit_section_start := 9 * N / 10
  let divergence_angle :=
    if exit_section_start < N - 2 then Real.arctan (polyfitSlope x r exit_section_start N)
    else if 2 ≤ N then Real.arctan ((r (N - 1) - r (N - 2)) / (x (N - 1) - x (N - 2)))
    else radians 15
  let lambda_d := 0.5 * (1 + Real.cos divergence_angle)
  let C_f := C_f_ideal * lambda_d
  let surface_area := ∑ i ∈ Finset.Ico 1 N,
    2 * Real.pi * ((r i + r (i - 1)) / 2) *
      Real.sqrt ((x i - x (i - 1)) ^ 2 + (r i - r (i - 1)) ^ 2)
  let length_to_throat_ratio := (x_exit - x_throat) / r_throat
  let base_efficiency := if area_ratio < 10 then 0.92 else if area_ratio < 50 then 0.94 else 0.96
  let nozzle_type := (d.nozzle_type.getD "unknown").toLower
  let efficiency_factor :=
    if pyIn "conical" nozzle_type then 0.98
    else if pyIn "bell" nozzle_type || pyIn "rao" nozzle_type then 1.01
    else if pyIn "moc" nozzle_type then 1.02
    else 1.0
  let nozzle_efficiency := min 0.99 (base_efficiency * efficiency_factor * lambda_d)
  { area_ratio := area_ratio
    pressure_ratio := p_c / p_exit
    thrust_coefficient := C_f
    ideal_thrust_coefficient := C_f_ideal
    discharge_coefficient := 0.98
    surface_area := surface_area
    nozzle_efficiency := nozzle_efficiency
    divergence_loss_factor := lambda_d
    divergence_angle_deg := divergence_angle / Real.pi * 180
    length_to_throat_ratio := length_to_throat_ratio
    exit_mach_number := m_exit }

/-! ## Specification-side definitions (stated from the claims' words, for
refinement comparisons) -/

/-- The efficiency base bracket as the specification states it. -/
def specBaseEfficiency (ar : ℝ) : ℝ :=
  if ar < 10 then 0.92 else if ar < 50 then 0.94 else 0.96

/-- The method factor as the specification states it (conical 0.98,
bell/Rao 1.01, MOC 1.02, default 1.00), keyed on the record's nozzle type. -/
def specMethodFactor (nozzle_type : String) : ℝ :=
  if pyIn "conical" nozzle_type.toLower then 0.98
  else if pyIn "bell" nozzle_type.toLower || pyIn "rao" nozzle_type.toLower then 1.01
  else if pyIn "moc" nozzle_type.toLower then 1.02
  else 1.0

/-- The percent-bell angle table exactly as claim C4 states it:
`≤60% → (40°,18°)`, `≤80% → (35°,12°)`, `>80% → (30°,8°)` (radians). -/
def claimedBellThetaTable (percent_bell : ℝ) : ℝ × ℝ :=
  if percent_bell ≤ 60 then (radians 40, radians 18)
  else if percent_bell ≤ 80 then (radians 35, radians 12)
  else (radians 30, radians 8)

/-! ## Claim theorems -/

/-- One unrolling of the Newton loop when the update raises
(`ZeroDivisionError` propagates). -/
theorem machNRLoop_succ_none (g AR M : ℝ) (k : ℕ)
    (hstep : Util.machNRStep g AR M = none) :
    Util.machNRLoop g AR (k + 1) M = none := by
  conv_lhs => unfold Util.machNRLoop
  rw [hstep]

/-- One unrolling of the Newton loop when the update succeeds. -/
theorem machNRLoop_succ_some (g AR M M_new : ℝ) (k : ℕ)
    (hstep : Util.machNRStep g AR M = some M_new) :
    Util.machNRLoop g AR (k + 1) M =
      if |M_new - M| < 1e-8 then some (M_new, true)
      else Util.machNRLoop g AR k M_new := by
  conv_lhs => unfold Util.machNRLoop
  rw [hstep]

/-- C10: for a fixed thermochemical record, `calculate_performance` returns
the same `exit_mach_number`, `pressure_ratio` and `ideal_thrust_coefficient`
for any two contours: these outputs are computed from
`get_throat_properties(record)` only and never read the coordinates. -/
theorem claim_C10_record_only_outputs (d : CeaData) (c1 c2 : Contour) :
    (calculate_performance d c1).exit_mach_number =
      (calculate_performance d c2).exit_mach_number ∧
    (calculate_performance d c1).pressure_ratio =
      (calculate_performance d c2).pressure_ratio ∧
    (calculate_performance d c1).ideal_thrust_coefficient =
      (calculate_performance d c2).ideal_thrust_coefficient :=
  ⟨rfl, rfl, rfl⟩

/-- C6, refuted at a valid input: with the divisions of the Newton update
modelled faithfully (`none`/`ZeroDivisionError` when a denominator is
zero), `util.mach_from_area_ratio` at the valid input `area_ratio = 1.0`
(γ = 7/5) raises `ZeroDivisionError` instead of returning: the initial
guess is exactly `M = 1`, where the code's `df` is exactly `0`, so the
first `f / df` divides by zero.  The `ValueError` branch itself is exact
(taken iff `area_ratio < 1`), and on fuel exhaustion the loop does return
the last estimate together with the (logged, non-fatal) warning flag. -/
theorem claim_C6_failing_eval :
    Util.mach_from_area_ratio 1 (7 / 5) = .error "ZeroDivisionError" ∧
    (∀ area_ratio gamma : ℝ,
      Util.mach_from_area_ratio area_ratio gamma = .error "Area ratio must be >= 1.0" ↔
        area_ratio < 1) ∧
    (∀ gamma AR M : ℝ, Util.machNRLoop gamma AR 0 M = some (M, false)) := by
  refine ⟨?_, fun AR g => ⟨?_, ?_⟩, fun g AR M => rfl⟩
  · unfold Util.mach_from_area_ratio
    rw [if_neg (by norm_num : ¬ (1 : ℝ) < 1)]
    simp only
    rw [if_neg (by norm_num : ¬ (1 : ℝ) > 5)]
    have hM0 : (1 + 0.5 * ((1 : ℝ) - 1)) = 1 := by norm_num
    rw [hM0]
    have hstep : Util.machNRStep (7 / 5) 1 1 = none := by
      unfold Util.machNRStep
      have hexp : ((7 / 5 + 1 : ℝ) / (2 * (7 / 5 - 1))) = ((3 : ℕ) : ℝ) := by norm_num
      simp only [hexp, Real.rpow_natCast]
      norm_num
    rw [show (50 : ℕ) = 49 + 1 from rfl, machNRLoop_succ_none (7 / 5) 1 1 49 hstep]
  · intro he
    by_contra h
    unfold Util.mach_from_area_ratio at he
    rw [if_neg h] at he
    simp only at he
    rcases hl : Util.machNRLoop g AR 50
        (if AR > 5 then 1 + 0.8 * Real.logb 10 AR else 1 + 0.5 * (AR - 1)) with _ | v
    · rw [hl] at he
      have he2 : (Except.error "ZeroDivisionError" : Except String (ℝ × Bool)) =
          Except.error "Area ratio must be >= 1.0" := he
      injection he2 with hs
      simp at hs
    · rw [hl] at he
      have he2 : (Except.ok v : Except String (ℝ × Bool)) =
          Except.error "Area ratio must be >= 1.0" := he
      exact Except.noConfusion he2
  · intro h
    unfold Util.mach_from_area_ratio
    rw [if_pos h]

/-- C8: the returned nozzle efficiency equals
`min(0.99, base_efficiency · method_factor · λ)` with the base bracket and
method factor exactly as specified, where `λ` is the divergence loss factor
`(1 + cos α)/2` of the report's own divergence angle; in particular it never
exceeds 0.99. -/
theorem claim_C8_nozzle_efficiency (d : CeaData) (c : Contour) (_hc : 2 ≤ c.len) :
    (calculate_performance d c).nozzle_efficiency =
      min 0.99 (specBaseEfficiency (calculate_performance d c).area_ratio *
        specMethodFactor (d.nozzle_type.getD "unknown") *
        (calculate_performance d c).divergence_loss_factor) ∧
    (calculate_performance d c).divergence_loss_factor =
      (1 + Real.cos (radians (calculate_performance d c).divergence_angle_deg)) / 2 ∧
    (calculate_performance d c).nozzle_efficiency ≤ 0.99 := by
  refine ⟨rfl, ?_, min_le_left _ _⟩
  show 0.5 * (1 + Real.cos _) = (1 + Real.cos (radians (_ / Real.pi * 180))) / 2
  have hpi := Real.pi_ne_zero
  rw [show ∀ a : ℝ, radians (a / Real.pi * 180) = a from fun a => by
    unfold radians; field_simp]
  ring

/-- C8 witness: the theorem applied to a concrete record and a concrete
two-point contour. -/
theorem claim_C8_nozzle_efficiency_witness :
    2 ≤ (Contour.mk 2 (fun i => (i : ℝ)) fun i => (i : ℝ) + 1).len ∧
    ((calculate_performance {} (Contour.mk 2 (fun i => (i : ℝ)) fun i => (i : ℝ) + 1)).nozzle_efficiency =
      min 0.99 (specBaseEfficiency (calculate_performance {} (Contour.mk 2 (fun i => (i : ℝ)) fun i => (i : ℝ) + 1)).area_ratio *
        specMethodFactor ((CeaData.nozzle_type {}).getD "unknown") *
        (calculate_performance {} (Contour.mk 2 (fun i => (i : ℝ)) fun i => (i : ℝ) + 1)).divergence_loss_factor) ∧
    (calculate_performance {} (Contour.mk 2 (fun i => (i : ℝ)) fun i => (i : ℝ) + 1)).divergence_loss_factor =
      (1 + Real.cos (radians (calculate_performance {} (Contour.mk 2 (fun i => (i : ℝ)) fun i => (i : ℝ) + 1)).divergence_angle_deg)) / 2 ∧
    (calculate_performance {} (Contour.mk 2 (fun i => (i : ℝ)) fun i => (i : ℝ) + 1)).nozzle_efficiency ≤ 0.99) :=
  ⟨by norm_num, claim_C8_nozzle_efficiency {} _ (by norm_num)⟩

/-- C4 counterexample: at `percent_bell = 80` the claim's table prescribes
the angle pair `(35°, 12°)`, but `bell_nozzle` selects `(30°, 8°)` (the
source has four brackets `≤60/≤75/≤85/>85`, not the claimed three); the two
initial angles really differ. -/
theorem claim_C4_counterexample :
    claimedBellThetaTable 80 = (radians 35, radians 12) ∧
    bell_theta_initial 80 = radians 30 ∧ bell_theta_exit 80 = radians 8 ∧
    bell_theta_initial 80 ≠ (claimedBellThetaTable 80).1 := by
  have h1 : claimedBellThetaTable 80 = (radians 35, radians 12) := by
    unfold claimedBellThetaTable; norm_num
  have h2 : bell_theta_initial 80 = radians 30 := by
    unfold bell_theta_initial; norm_num
  refine ⟨h1, h2, by unfold bell_theta_exit; norm_num, ?_⟩
  rw [h1, h2]
  unfold radians
  intro h
  have := Real.pi_ne_zero
  apply this
  linarith

/-- C7 counterexample: with the divergent contour `x = [0, 1]`, `r = [1, 2]`,
throat radius `1` and the default parameters, the x-coordinates returned by
`add_inlet_section` are not strictly increasing: the chamber/converging
boundary point `−L/2` appears twice (indices 9 and 10) because the source
concatenates the segments without removing duplicate boundary points. -/
theorem claim_C7_counterexample :
    ¬ strictIncrOn
      (add_inlet_section (Contour.mk 2 (fun i => (i : ℝ)) fun i => (i : ℝ) + 1) 1 2.5 3 40).x
      (add_inlet_section (Contour.mk 2 (fun i => (i : ℝ)) fun i => (i : ℝ) + 1) 1 2.5 3 40).len := by
  intro h
  have h9 := h 9 (by norm_num [add_inlet_section])
  simp only [add_inlet_section, appendF, linF] at h9
  norm_num at h9

/-- `linF a b n 0 = a`. -/
theorem linF_zero (a b : ℝ) (n : ℕ) : linF a b n 0 = a := by
  unfold linF; simp

/-- For at least two sample points the last `linspace` sample is exactly `b`. -/
theorem linF_last (a b : ℝ) {n : ℕ} (hn : 2 ≤ n) : linF a b n (n - 1) = b := by
  unfold linF
  have h1 : ((n - 1 : ℕ) : ℝ) = (n : ℝ) - 1 := by
    rw [Nat.cast_sub (by omega)]; norm_num
  have hne : ((n : ℝ) - 1) ≠ 0 := by
    have : (2 : ℝ) ≤ (n : ℝ) := by exact_mod_cast hn
    linarith
  rw [h1, mul_div_assoc, div_self hne]
  ring

/-- `linspace` samples are monotone when `a ≤ b` (for `n ≥ 1`; for `n = 1`
the real-division-by-zero convention makes every sample `a`). -/
theorem linF_mono (a b : ℝ) (hab : a ≤ b) {n : ℕ} (hn : 1 ≤ n) {j k : ℕ} (hjk : j ≤ k) :
    linF a b n j ≤ linF a b n k := by
  unfold linF
  rcases eq_or_lt_of_le hn with h1 | h2
  · have h0 : ((n : ℝ) - 1) = 0 := by rw [← h1]; norm_num
    simp [h0]
  · have hpos : (0 : ℝ) < (n : ℝ) - 1 := by
      have : (2 : ℝ) ≤ (n : ℝ) := by exact_mod_cast h2
      linarith
    have hjk' : (j : ℝ) ≤ (k : ℝ) := by exact_mod_cast hjk
    gcongr
    linarith

/-- In-range `linspace` samples do not exceed `b` when `a ≤ b`. -/
theorem linF_le_right (a b : ℝ) (hab : a ≤ b) {n : ℕ} (hn : 1 ≤ n) {j : ℕ} (hj : j ≤ n - 1) :
    linF a b n j ≤ b := by
  unfold linF
  rcases eq_or_lt_of_le hn with h1 | h2
  · have h0 : ((n : ℝ) - 1) = 0 := by rw [← h1]; norm_num
    simp [h0, hab]
  · have hpos : (0 : ℝ) < (n : ℝ) - 1 := by
      have : (2 : ℝ) ≤ (n : ℝ) := by exact_mod_cast h2
      linarith
    have hj' : (j : ℝ) ≤ (n : ℝ) - 1 := by
      have : (j : ℝ) ≤ ((n - 1 : ℕ) : ℝ) := by exact_mod_cast hj
      rwa [Nat.cast_sub (by omega), Nat.cast_one] at this
    have hfrac : (b - a) * (j : ℝ) / ((n : ℝ) - 1) ≤ b - a := by
      rw [div_le_iff₀ hpos]
      nlinarith
    linarith

/-- In-range `linspace` samples are at least `a` when `a ≤ b` (and `n ≥ 1`). -/
theorem linF_ge_left (a b : ℝ) (hab : a ≤ b) {n : ℕ} (hn : 1 ≤ n) (j : ℕ) : a ≤ linF a b n j := by
  unfold linF
  rcases eq_or_lt_of_le hn with h1 | h2
  · have h0 : ((n : ℝ) - 1) = 0 := by rw [← h1]; norm_num
    simp [h0]
  · have hpos : (0 : ℝ) < (n : ℝ) - 1 := by
      have : (2 : ℝ) ≤ (n : ℝ) := by exact_mod_cast h2
      linarith
    have hba : (0 : ℝ) ≤ b - a := by linarith
    have : 0 ≤ (b - a) * (j : ℝ) / ((n : ℝ) - 1) :=
      div_nonneg (mul_nonneg hba (Nat.cast_nonneg j)) (le_of_lt hpos)
    linarith

/-- C7 (amended): `add_inlet_section` is prepend-only and pure — the suffix
of the result is the original divergent contour unchanged — and its
x-coordinates are monotone non-decreasing; they are not strictly increasing
in general because the duplicate boundary points between the chamber, the
converging section and the divergent contour are retained, not removed. -/
theorem claim_C7_amended (c : Contour) (R_t crr clr : ℝ) (N_inlet : ℕ)
    (hR : 0 < R_t) (hclr : 0 < clr) (hN : 4 ≤ N_inlet) (hx0 : c.x 0 = 0)
    (hmono : ∀ i, i + 1 < c.len → c.x i ≤ c.x (i + 1)) :
    (add_inlet_section c R_t crr clr N_inlet).len = N_inlet / 4 + N_inlet + c.len ∧
    (∀ i, (add_inlet_section c R_t crr clr N_inlet).x (N_inlet / 4 + N_inlet + i) = c.x i) ∧
    (∀ i, (add_inlet_section c R_t crr clr N_inlet).r (N_inlet / 4 + N_inlet + i) = c.r i) ∧
    (∀ i, i + 1 < N_inlet / 4 + N_inlet + c.len →
      (add_inlet_section c R_t crr clr N_inlet).x i ≤
        (add_inlet_section c R_t crr clr N_inlet).x (i + 1)) := by
  have hL : 0 < R_t * clr := mul_pos hR hclr
  have hNch : 1 ≤ N_inlet / 4 := (Nat.one_le_div_iff (by norm_num)).mpr hN
  refine ⟨rfl, ?_, ?_, ?_⟩
  · intro i
    simp only [add_inlet_section]
    unfold appendF
    rw [if_neg (by omega), if_neg (by omega)]
    congr 1
    omega
  · intro i
    simp only [add_inlet_section]
    unfold appendF
    rw [if_neg (by omega), if_neg (by omega)]
    congr 1
    omega
  · intro i hi
    simp only [add_inlet_section] at hi ⊢
    have hab1 : -(R_t * clr) ≤ -(R_t * clr) / 2 := by linarith
    have hab2 : -(R_t * clr) / 2 ≤ (0 : ℝ) := by linarith
    unfold appendF
    split_ifs with hA hB hB hC hD hD hC hD
    · -- both inside the chamber
      exact linF_mono _ _ hab1 hNch (Nat.le_succ i)
    · -- chamber/converging boundary: i+1 lands on conv index 0
      have hi1 : i + 1 - N_inlet / 4 = 0 := by omega
      rw [hi1, linF_zero]
      exact linF_le_right _ _ hab1 hNch (by omega)
    · -- impossible: i+1 left both prefixes while i is still in the chamber
      omega
    · omega
    · -- both inside the converging section
      have hstep : i + 1 - N_inlet / 4 = (i - N_inlet / 4) + 1 := by omega
      rw [hstep]
      exact linF_mono _ _ hab2 (by omega) (Nat.le_succ _)
    · -- converging/divergent boundary: i+1 lands on the original contour at index 0
      have hi1 : i + 1 - N_inlet / 4 - N_inlet = 0 := by omega
      rw [hi1, hx0]
      exact linF_le_right _ _ hab2 (by omega) (by omega)
    · omega
    · omega
    · -- both inside the original divergent contour
      have hstep : i + 1 - N_inlet / 4 - N_inlet = (i - N_inlet / 4 - N_inlet) + 1 := by omega
      rw [hstep]
      exact hmono _ (by omega)

/-- C7 amended witness: the theorem applied at a concrete two-point contour
with throat radius 1 and `N_inlet = 4`. -/
theorem claim_C7_amended_witness :
    (0 : ℝ) < 1 ∧ (0 : ℝ) < 3 ∧ 4 ≤ 4 ∧ (Contour.mk 2 (fun i => (i : ℝ)) fun i => (i : ℝ)).x 0 = 0 ∧
    ((add_inlet_section (Contour.mk 2 (fun i => (i : ℝ)) fun i => (i : ℝ)) 1 2.5 3 4).len =
        4 / 4 + 4 + (Contour.mk 2 (fun i => (i : ℝ)) fun i => (i : ℝ)).len ∧
      (∀ i, (add_inlet_section (Contour.mk 2 (fun i => (i : ℝ)) fun i => (i : ℝ)) 1 2.5 3 4).x
          (4 / 4 + 4 + i) = (Contour.mk 2 (fun i => (i : ℝ)) fun i => (i : ℝ)).x i) ∧
      (∀ i, (add_inlet_section (Contour.mk 2 (fun i => (i : ℝ)) fun i => (i : ℝ)) 1 2.5 3 4).r
          (4 / 4 + 4 + i) = (Contour.mk 2 (fun i => (i : ℝ)) fun i => (i : ℝ)).r i) ∧
      (∀ i, i + 1 < 4 / 4 + 4 + (Contour.mk 2 (fun i => (i : ℝ)) fun i => (i : ℝ)).len →
        (add_inlet_section (Contour.mk 2 (fun i => (i : ℝ)) fun i => (i : ℝ)) 1 2.5 3 4).x i ≤
          (add_inlet_section (Contour.mk 2 (fun i => (i : ℝ)) fun i => (i : ℝ)) 1 2.5 3 4).x (i + 1))) :=
  ⟨by norm_num, by norm_num, by norm_num, by norm_num,
    claim_C7_amended (Contour.mk 2 (fun i => (i : ℝ)) fun i => (i : ℝ)) 1 2.5 3 4
      (by norm_num) (by norm_num) (by norm_num) (by norm_num)
      (by
        intro i hi
        have h2 : i + 1 < 2 := hi
        have : i = 0 := by omega
        subst this
        norm_num)⟩

/-- `tan(15°) > 0`. -/
theorem tan_radians_fifteen_pos : 0 < Real.tan (radians 15) := by
  unfold radians
  apply Real.tan_pos_of_pos_of_lt_pi_div_two
  · positivity
  · nlinarith [Real.pi_pos]

/-- C4 (amended): for percent bell in `[60, 100]`, `area_ratio > 1` and a
positive throat radius, `bell_nozzle` fits the cubic
`r(x) = a·x³ + b·x² + c·x + d` subject to `r(0) = R_t`, `r(L) = R_e`,
`r'(0) = tan(θ_init)`, `r'(L) = tan(θ_exit)` over the length
`L = (pct/100)·L_conical(15°)`, where the angle pair comes from the
source's four-bracket table (`≤60→(40°,15°)`, `≤75→(35°,12°)`,
`≤85→(30°,8°)`, `>85→(25°,5°)`) — not the claimed three-bracket table —
and the interior samples follow that cubic. -/
theorem claim_C4_amended (d : CeaData) (AR R_t pct : ℝ) (N : ℕ) (hAR : d.AeAt = some AR)
    (h1 : 1 < AR) (hR : 0 < R_t) (hp1 : 60 ≤ pct) (_hp2 : pct ≤ 100) :
    ∃ (co : Contour) (ca cb cc cd : ℝ),
      bell_nozzle d (some R_t) N pct = some co ∧
      co.x = linF 0 ((R_t * Real.sqrt AR - R_t) / Real.tan (radians 15) * (pct / 100)) N ∧
      cd = R_t ∧
      cc = Real.tan (bell_theta_initial pct) ∧
      ca * ((R_t * Real.sqrt AR - R_t) / Real.tan (radians 15) * (pct / 100)) ^ 3 +
        cb * ((R_t * Real.sqrt AR - R_t) / Real.tan (radians 15) * (pct / 100)) ^ 2 +
        cc * ((R_t * Real.sqrt AR - R_t) / Real.tan (radians 15) * (pct / 100)) + cd =
        R_t * Real.sqrt AR ∧
      3 * ca * ((R_t * Real.sqrt AR - R_t) / Real.tan (radians 15) * (pct / 100)) ^ 2 +
        2 * cb * ((R_t * Real.sqrt AR - R_t) / Real.tan (radians 15) * (pct / 100)) + cc =
        Real.tan (bell_theta_exit pct) ∧
      ∀ i, 0 < i → i + 1 < N →
        co.r i = ca * co.x i ^ 3 + cb * co.x i ^ 2 + cc * co.x i + cd := by
  have hsq : 1 < Real.sqrt AR := by
    rw [show (1 : ℝ) = Real.sqrt 1 from (Real.sqrt_one).symm]
    exact Real.sqrt_lt_sqrt (by norm_num) h1
  have htan := tan_radians_fifteen_pos
  have hL : 0 < (R_t * Real.sqrt AR - R_t) / Real.tan (radians 15) * (pct / 100) := by
    apply mul_pos
    · apply div_pos
      · nlinarith
      · exact htan
    · linarith
  set L := (R_t * Real.sqrt AR - R_t) / Real.tan (radians 15) * (pct / 100) with hLdef
  have hdet : det4 (0 : ℝ) 0 0 1 (L ^ 3) (L ^ 2) L 1 0 0 1 0 (3 * L ^ 2) (2 * L) 1 0 = -L ^ 4 := by
    unfold det4; ring
  have hdne : det4 (0 : ℝ) 0 0 1 (L ^ 3) (L ^ 2) L 1 0 0 1 0 (3 * L ^ 2) (2 * L) 1 0 ≠ 0 := by
    rw [hdet]
    exact neg_ne_zero.mpr (by positivity)
  obtain ⟨v, hsolve⟩ : ∃ v, solve4 (0 : ℝ) 0 0 1 (L ^ 3) (L ^ 2) L 1 0 0 1 0
      (3 * L ^ 2) (2 * L) 1 0 R_t (R_t * Real.sqrt AR)
      (Real.tan (bell_theta_initial pct)) (Real.tan (bell_theta_exit pct)) = some v := by
    unfold solve4
    rw [if_neg hdne]
    exact ⟨_, rfl⟩
  have spec := solve4_spec _ _ _ _ _ _ _ _ _ _ _ _ _ _ _ _ _ _ _ _ _ hsolve
  obtain ⟨ca, cb, cc, cd⟩ := v
  unfold bell_nozzle
  simp only [get_throat_properties, hAR, Option.getD_some, resolveRthroat, ← hLdef]
  rw [hsolve]
  refine ⟨_, ca, cb, cc, cd, rfl, rfl, ?_, ?_, ?_, ?_, ?_⟩
  · linarith [spec.1]
  · linarith [spec.2.2.1]
  · linear_combination spec.2.1
  · linear_combination spec.2.2.2
  · intro i h0 hiN
    show (if i = N - 1 then _ else if i = 0 then _ else _) = _
    rw [if_neg (by omega), if_neg (by omega)]

/-- C4 amended witness: the theorem instantiated at `area_ratio = 4`, throat
radius `1`, `percent_bell = 80`, `N = 3`. -/
theorem claim_C4_amended_witness :
    (⟨none, none, none, some 4, none, none, none⟩ : CeaData).AeAt = some 4 ∧
    (1 : ℝ) < 4 ∧ (0 : ℝ) < 1 ∧ (60 : ℝ) ≤ 80 ∧ (80 : ℝ) ≤ 100 ∧
    ∃ (co : Contour) (ca cb cc cd : ℝ),
      bell_nozzle ⟨none, none, none, some 4, none, none, none⟩ (some 1) 3 80 = some co ∧
      co.x = linF 0 ((1 * Real.sqrt 4 - 1) / Real.tan (radians 15) * (80 / 100)) 3 ∧
      cd = 1 ∧
      cc = Real.tan (bell_theta_initial 80) ∧
      ca * ((1 * Real.sqrt 4 - 1) / Real.tan (radians 15) * (80 / 100)) ^ 3 +
        cb * ((1 * Real.sqrt 4 - 1) / Real.tan (radians 15) * (80 / 100)) ^ 2 +
        cc * ((1 * Real.sqrt 4 - 1) / Real.tan (radians 15) * (80 / 100)) + cd =
        1 * Real.sqrt 4 ∧
      3 * ca * ((1 * Real.sqrt 4 - 1) / Real.tan (radians 15) * (80 / 100)) ^ 2 +
        2 * cb * ((1 * Real.sqrt 4 - 1) / Real.tan (radians 15) * (80 / 100)) + cc =
        Real.tan (bell_theta_exit 80) ∧
      ∀ i, 0 < i → i + 1 < 3 →
        co.r i = ca * co.x i ^ 3 + cb * co.x i ^ 2 + cc * co.x i + cd :=
  ⟨rfl, by norm_num, by norm_num, by norm_num, by norm_num,
    claim_C4_amended ⟨none, none, none, some 4, none, none, none⟩ 4 1 80 3 rfl
      (by norm_num) (by norm_num) (by norm_num) (by norm_num)⟩

set_option maxHeartbeats 1000000 in
/-- With `gamma = 7/5` and `area_ratio = 27/16` the Newton update of
`util.mach_from_area_ratio` maps the interval `(0, 1/10]` into itself
without dividing by zero: the sign error in the code's analytic derivative
makes the subsonic region absorbing.  (With `γ = 7/5` the rpow exponent is
exactly `3`.) -/
theorem machNRStep_small_interval (M : ℝ) (h0 : 0 < M) (h1 : M ≤ 1 / 10) :
    ∃ M_new, Util.machNRStep (7 / 5) (27 / 16) M = some M_new ∧
      0 < M_new ∧ M_new ≤ 1 / 10 := by
  unfold Util.machNRStep
  have hexp : ((7 / 5 + 1 : ℝ) / (2 * (7 / 5 - 1))) = ((3 : ℕ) : ℝ) := by norm_num
  simp only [hexp, Real.rpow_natCast]
  have hM : M ≠ 0 := ne_of_gt h0
  split_ifs with hg
  · exfalso
    rcases hg with hg | hg | hg
    · exact hM hg
    · nlinarith [mul_self_nonneg M]
    · set u := 1 + 0.5 * (7 / 5 - 1) * M * M with hudef
      have hu1 : (1 : ℝ) ≤ u := by rw [hudef]; nlinarith [mul_self_nonneg M]
      have hupos : (0 : ℝ) < u := by linarith
      have hB : (0 : ℝ) < 1 - (7 / 5 + 1) / 2 * M ^ 2 / u := by
        have hfr : (7 / 5 + 1) / 2 * M ^ 2 / u ≤ 6 / 500 := by
          rw [div_le_iff₀ hupos]; nlinarith
        linarith
      have hdf : (0 : ℝ) < 1 / M ^ 2 * (2 / (7 / 5 + 1) * u) ^ (3 : ℕ) *
          (1 - (7 / 5 + 1) / 2 * M ^ 2 / u) := by positivity
      exact (ne_of_gt hdf) hg
  clear hg
  refine ⟨_, rfl, ?_, ?_⟩
  · norm_num
    set t := 1 + 1 / 5 * M * M with htdef
    have ht1 : (1 : ℝ) ≤ t := by rw [htdef]; nlinarith [mul_self_nonneg M]
    have ht2 : t ≤ 501 / 500 := by rw [htdef]; nlinarith
    have htpos : (0 : ℝ) < t := by linarith
    have htne : t ≠ 0 := ne_of_gt htpos
    have hB : (0 : ℝ) < 1 - 6 / 5 * M ^ 2 / t := by
      have hfr : 6 / 5 * M ^ 2 / t ≤ 6 / 500 := by
        rw [div_le_iff₀ htpos]; nlinarith
      linarith
    have hdf : (0 : ℝ) < (M ^ 2)⁻¹ * (5 / 6 * t) ^ 3 * (1 - 6 / 5 * M ^ 2 / t) := by positivity
    rw [div_lt_iff₀ hdf]
    have key : M * ((M ^ 2)⁻¹ * (5 / 6 * t) ^ 3 * (1 - 6 / 5 * M ^ 2 / t)) =
        M⁻¹ * (5 / 6 * t) ^ 3 - 6 / 5 * M * (5 / 6 * t) ^ 3 / t := by
      field_simp
      ring
    rw [key]
    have hzb : ((5 : ℝ) / 6 * t) ^ 3 ≤ (501 / 600) ^ 3 := by
      apply pow_le_pow_left₀ (by positivity) (by linarith)
    have hsmall : 6 / 5 * M * (5 / 6 * t) ^ 3 / t < 27 / 16 := by
      rw [div_lt_iff₀ htpos]
      nlinarith
    linarith
  · norm_num
    set t := 1 + 1 / 5 * M * M with htdef
    have ht1 : (1 : ℝ) ≤ t := by rw [htdef]; nlinarith [mul_self_nonneg M]
    have htpos : (0 : ℝ) < t := by linarith
    have htne : t ≠ 0 := ne_of_gt htpos
    have hB : (0 : ℝ) < 1 - 6 / 5 * M ^ 2 / t := by
      have hfr : 6 / 5 * M ^ 2 / t ≤ 6 / 500 := by
        rw [div_le_iff₀ htpos]; nlinarith
      linarith
    have hdf : (0 : ℝ) < (M ^ 2)⁻¹ * (5 / 6 * t) ^ 3 * (1 - 6 / 5 * M ^ 2 / t) := by positivity
    have h10 : ((1 : ℝ) / 10)⁻¹ ≤ M⁻¹ := inv_anti₀ h0 h1
    have hz3 : ((5 : ℝ) / 6) ^ 3 ≤ (5 / 6 * t) ^ 3 := by
      apply pow_le_pow_left₀ (by norm_num) (by nlinarith)
    have hf : (0 : ℝ) ≤ M⁻¹ * (5 / 6 * t) ^ 3 - 27 / 16 := by
      nlinarith
    have : (0 : ℝ) ≤ (M⁻¹ * (5 / 6 * t) ^ 3 - 27 / 16) /
        ((M ^ 2)⁻¹ * (5 / 6 * t) ^ 3 * (1 - 6 / 5 * M ^ 2 / t)) :=
      div_nonneg hf (le_of_lt hdf)
    linarith

/-- Once an iterate of `util.mach_from_area_ratio` (γ = 7/5, AR = 27/16)
falls into `(0, 1/10]`, every later returned value stays there. -/
theorem machNRLoop_stays_small (fuel : ℕ) :
    ∀ M : ℝ, 0 < M → M ≤ 1 / 10 →
      ∃ v, Util.machNRLoop (7 / 5) (27 / 16) fuel M = some v ∧ v.1 ≤ 1 / 10 := by
  induction fuel with
  | zero => intro M _ h1; exact ⟨(M, false), rfl, h1⟩
  | succ k ih =>
    intro M h0 h1
    obtain ⟨M_new, hstep, hs0, hs1⟩ := machNRStep_small_interval M h0 h1
    rw [machNRLoop_succ_some (7 / 5) (27 / 16) M M_new k hstep]
    by_cases hc : |M_new - M| < 1e-8
    · exact ⟨(M_new, true), by rw [if_pos hc], hs1⟩
    · obtain ⟨v, hv, hv1⟩ := ih M_new hs0 hs1
      exact ⟨v, by rw [if_neg hc]; exact hv, hv1⟩

/-- The first Newton update from the initial guess `M₀ = 43/32` (for
`AR = 27/16`, `γ = 7/5`) succeeds (no denominator vanishes) and lands in
`(0, 1/10]`, far outside the early-return tolerance: the wrong-signed
derivative throws the iterate deep into the subsonic region. -/
theorem machNRStep_first_update :
    ∃ M1, Util.machNRStep (7 / 5) (27 / 16) (43 / 32) = some M1 ∧
      0 < M1 ∧ M1 ≤ 1 / 10 ∧ ¬ |M1 - 43 / 32| < 1e-8 := by
  unfold Util.machNRStep
  have hexp : ((7 / 5 + 1 : ℝ) / (2 * (7 / 5 - 1))) = ((3 : ℕ) : ℝ) := by norm_num
  simp only [hexp, Real.rpow_natCast]
  split_ifs with hg
  · exact absurd hg (by norm_num)
  · refine ⟨_, rfl, ?_⟩
    norm_num [abs_sub_lt_iff]
    exact le_abs.mpr (Or.inl (by norm_num))

/-- C3, evaluated at the failing input: for `area_ratio = 27/16 = 1.6875`
and `gamma = 7/5 = 1.4`, `util.mach_from_area_ratio` returns a Mach number
`< 1` (in fact `≤ 1/10`): the code's `df` negates the true derivative of the
area-Mach relation, so the iteration runs away from the supersonic root and
collapses into the subsonic interval, which it never leaves. -/
theorem claim_C3_failing_eval :
    ∃ v : ℝ × Bool, Util.mach_from_area_ratio (27 / 16) (7 / 5) = .ok v ∧ v.1 < 1 := by
  unfold Util.mach_from_area_ratio
  rw [if_neg (by norm_num : ¬ (27 / 16 : ℝ) < 1)]
  simp only
  rw [if_neg (by norm_num : ¬ (27 / 16 : ℝ) > 5)]
  have hM0 : (1 + 0.5 * ((27 : ℝ) / 16 - 1)) = 43 / 32 := by norm_num
  rw [hM0]
  obtain ⟨M1, hstep, h1pos, h1le, hfar⟩ := machNRStep_first_update
  obtain ⟨w, hw, hw1⟩ := machNRLoop_stays_small 49 M1 h1pos h1le
  have hloop : Util.machNRLoop (7 / 5) (27 / 16) 50 (43 / 32) = some w := by
    rw [show (50 : ℕ) = 49 + 1 from rfl,
      machNRLoop_succ_some (7 / 5) (27 / 16) (43 / 32) M1 49 hstep, if_neg hfar]
    exact hw
  rw [hloop]
  exact ⟨w, rfl, by linarith⟩

/-- At `area_ratio = 1` the bell length is `0` and the cubic-fit matrix is
singular, so `np.linalg.solve` raises (`none`) for every throat radius,
point count and percent bell. -/
theorem bell_singular_at_unit_area_ratio (d : CeaData) (hAR : d.AeAt = some 1)
    (R : Option ℝ) (N : ℕ) (pct : ℝ) : bell_nozzle d R N pct = none := by
  unfold bell_nozzle
  simp only [get_throat_properties, hAR, Option.getD_some, Real.sqrt_one, mul_one, sub_self,
    zero_div, zero_mul, mul_zero]
  have hdet : det4 (0 : ℝ) 0 0 1 (0 ^ 3) (0 ^ 2) 0 1 0 0 1 0 (3 * 0 ^ 2) 0 1 0 = 0 := by
    unfold det4; ring
  rw [show solve4 (0 : ℝ) 0 0 1 (0 ^ 3) (0 ^ 2) 0 1 0 0 1 0 (3 * 0 ^ 2) 0 1 0
      (resolveRthroat d R) (resolveRthroat d R) (Real.tan (bell_theta_initial pct))
      (Real.tan (bell_theta_exit pct)) = none from by unfold solve4; rw [if_pos hdet]]

/-- At `area_ratio = 1` the Rao length is `0` and its cubic-fit matrix is
likewise singular: `rao_optimum_nozzle` raises (`none`). -/
theorem rao_singular_at_unit_area_ratio (d : CeaData) (hAR : d.AeAt = some 1)
    (R : Option ℝ) (N : ℕ) (theta_n theta_e : ℝ) :
    rao_optimum_nozzle d R N theta_n theta_e = none := by
  unfold rao_optimum_nozzle
  simp only [get_throat_properties, hAR, Option.getD_some, Real.sqrt_one, mul_one, sub_self,
    zero_div, zero_mul, mul_zero]
  have hdet : det4 (0 : ℝ) 0 0 1 0 0 1 0 (0 ^ 3) (0 ^ 2) 0 1 (3 * 0 ^ 2) 0 1 0 = 0 := by
    unfold det4; ring
  rw [show solve4 (0 : ℝ) 0 0 1 0 0 1 0 (0 ^ 3) (0 ^ 2) 0 1 (3 * 0 ^ 2) 0 1 0
      (resolveRthroat d R) (Real.tan (radians theta_n * 0.5))
      (resolveRthroat d R) (Real.tan (radians theta_e)) = none from by
    unfold solve4; rw [if_pos hdet]]

/-- C2 counterexample: `area_ratio = 1` with throat radius `1` and `N = 2`
is an admissible input on which the Rao generator raises a singular-matrix
error instead of returning a (monotone) contour, so the claimed universal
property over all generators fails. -/
theorem claim_C2_counterexample :
    rao_optimum_nozzle ⟨none, none, none, some 1, none, none, none⟩ (some 1) 2 30 7 = none :=
  rao_singular_at_unit_area_ratio _ rfl _ _ _ _

/-- C2 (amended): the package generators perform no monotonicity-repair step.
The conical generator needs none: its returned radii are monotone
non-decreasing over the full sampled contour for every admissible input.
The polynomial-fit generators (bell, Rao) raise a singular-matrix error at
`area_ratio = 1` instead of returning a contour. -/
theorem claim_C2_amended :
    (∀ (d : CeaData) (AR R_t : ℝ) (N : ℕ), d.AeAt = some AR → 1 ≤ AR → 0 < R_t → 2 ≤ N →
      ∀ i, i + 1 < N → (conical_nozzle d 15 (some R_t) N).r i ≤
        (conical_nozzle d 15 (some R_t) N).r (i + 1)) ∧
    (∀ (d : CeaData) (R : Option ℝ) (N : ℕ) (pct : ℝ), d.AeAt = some 1 →
      bell_nozzle d R N pct = none) ∧
    (∀ (d : CeaData) (R : Option ℝ) (N : ℕ) (tn te : ℝ), d.AeAt = some 1 →
      rao_optimum_nozzle d R N tn te = none) := by
  refine ⟨?_, fun d R N pct h => bell_singular_at_unit_area_ratio d h R N pct,
    fun d R N tn te h => rao_singular_at_unit_area_ratio d h R N tn te⟩
  intro d AR R_t N hAR h1 hR hN i hi
  unfold conical_nozzle
  simp only [get_throat_properties, hAR, Option.getD_some, resolveRthroat]
  have htan : 0 < Real.tan (radians 15) := tan_radians_fifteen_pos
  have hsq : 1 ≤ Real.sqrt AR := by
    rw [show (1 : ℝ) = Real.sqrt 1 from (Real.sqrt_one).symm]
    exact Real.sqrt_le_sqrt h1
  have hRe : R_t ≤ R_t * Real.sqrt AR := by nlinarith
  have hLnn : 0 ≤ (R_t * Real.sqrt AR - R_t) / Real.tan (radians 15) :=
    div_nonneg (by linarith) htan.le
  have hLtan : (R_t * Real.sqrt AR - R_t) / Real.tan (radians 15) * Real.tan (radians 15) =
      R_t * Real.sqrt AR - R_t := div_mul_cancel₀ _ (ne_of_gt htan)
  have hiN : ¬ i = N - 1 := by omega
  have hi1 : ¬ i + 1 = 0 := by omega
  rw [if_neg hiN]
  by_cases hB : i + 1 = N - 1
  · rw [if_pos hB]
    by_cases hC : i = 0
    · rw [if_pos hC]
      linarith
    · rw [if_neg hC]
      have hxle := linF_le_right 0 ((R_t * Real.sqrt AR - R_t) / Real.tan (radians 15)) hLnn
        (show 1 ≤ N by omega) (show i ≤ N - 1 by omega)
      have := mul_le_mul_of_nonneg_right hxle htan.le
      rw [hLtan] at this
      linarith
  · rw [if_neg hB, if_neg hi1]
    by_cases hC : i = 0
    · rw [if_pos hC]
      have hge := linF_ge_left 0 ((R_t * Real.sqrt AR - R_t) / Real.tan (radians 15)) hLnn
        (show 1 ≤ N by omega) (i + 1)
      have := mul_nonneg hge htan.le
      linarith
    · rw [if_neg hC]
      have hmn := linF_mono 0 ((R_t * Real.sqrt AR - R_t) / Real.tan (radians 15)) hLnn
        (show 1 ≤ N by omega) (Nat.le_succ i)
      have := mul_le_mul_of_nonneg_right hmn htan.le
      linarith

/-- C2 amended witness: the theorem applied at `area_ratio = 4`, throat
radius `1`, `N = 2` (conical part) and at a unit-area-ratio record (bell and
Rao parts). -/
theorem claim_C2_amended_witness :
    ((⟨none, none, none, some 4, none, none, none⟩ : CeaData).AeAt = some 4 ∧ (1 : ℝ) ≤ 4 ∧
      (0 : ℝ) < 1 ∧ 2 ≤ 2 ∧ 0 + 1 < 2 ∧
      (conical_nozzle ⟨none, none, none, some 4, none, none, none⟩ 15 (some 1) 2).r 0 ≤
        (conical_nozzle ⟨none, none, none, some 4, none, none, none⟩ 15 (some 1) 2).r (0 + 1)) ∧
    ((⟨none, none, none, some 1, none, none, none⟩ : CeaData).AeAt = some 1 ∧
      bell_nozzle ⟨none, none, none, some 1, none, none, none⟩ (some 1) 2 80 = none) :=
  ⟨⟨rfl, by norm_num, by norm_num, by norm_num, by norm_num,
    claim_C2_amended.1 ⟨none, none, none, some 4, none, none, none⟩ 4 1 2 rfl
      (by norm_num) (by norm_num) (by norm_num) 0 (by norm_num)⟩,
   ⟨rfl, claim_C2_amended.2.1 ⟨none, none, none, some 1, none, none, none⟩ (some 1) 2 80 rfl⟩⟩

/-! ## Analysis lemmas for the idealized root finders -/

/-- Strict Bernoulli inequality for `rpow` with exponent in `(0,1)`:
`t^p < (1 − p) + p·t` for `t > 1`. -/
theorem rpow_lt_linear_interp (p t : ℝ) (hp0 : 0 < p) (hp1 : p < 1) (ht : 1 < t) :
    t ^ p < (1 - p) + p * t := by
  have key : StrictMonoOn (fun s : ℝ => (1 - p) + p * s - s ^ p) (Set.Ici 1) := by
    apply strictMonoOn_of_deriv_pos (convex_Ici 1)
    · apply ContinuousOn.sub
      · exact (continuous_const.add (continuous_const.mul continuous_id)).continuousOn
      · apply ContinuousOn.rpow_const continuousOn_id
        intro x hx
        exact Or.inl (ne_of_gt (lt_of_lt_of_le one_pos hx))
    · intro x hx
      rw [interior_Ici] at hx
      have hx0 : x ≠ 0 := ne_of_gt (lt_trans one_pos hx)
      have h1 : HasDerivAt (fun s : ℝ => (1 - p) + p * s) p x := by
        simpa using ((hasDerivAt_id x).const_mul p).const_add (1 - p)
      have hd : HasDerivAt (fun s : ℝ => (1 - p) + p * s - s ^ p) (p - p * x ^ (p - 1)) x :=
        h1.sub (Real.hasDerivAt_rpow_const (Or.inl hx0))
      rw [hd.deriv]
      have hlt : x ^ (p - 1) < 1 := Real.rpow_lt_one_of_one_lt_of_neg hx (by linarith)
      nlinarith
  have hk := key Set.left_mem_Ici (Set.mem_Ici.mpr (le_of_lt ht)) ht
  simp only [Real.one_rpow] at hk
  linarith

/-- The area-Mach relation evaluates to `1` at `M = 1`. -/
theorem areaOfMach_one (gamma : ℝ) (hg : 1 < gamma) : Moc.areaOfMach 1 gamma = 1 := by
  unfold Moc.areaOfMach
  have hz : (2 / (gamma + 1)) * (1 + 0.5 * (gamma - 1) * (1 : ℝ) ^ 2) = 1 := by
    have : gamma + 1 ≠ 0 := by linarith
    field_simp
    ring
  rw [hz, Real.one_rpow]
  norm_num

/-- Strictly supersonic Mach numbers give area ratio strictly above `1`. -/
theorem areaOfMach_gt_one (gamma M : ℝ) (hg : 1 < gamma) (hM : 1 < M) :
    1 < Moc.areaOfMach M gamma := by
  unfold Moc.areaOfMach
  have hM0 : 0 < M := lt_trans one_pos hM
  have hgp : (0 : ℝ) < gamma + 1 := by linarith
  have hgm : (0 : ℝ) < gamma - 1 := by linarith
  have hp0 : 0 < (gamma - 1) / (gamma + 1) := div_pos hgm hgp
  have hp1 : (gamma - 1) / (gamma + 1) < 1 := (div_lt_one hgp).mpr (by linarith)
  have ht : 1 < M ^ 2 := by nlinarith
  have ht0 : (0 : ℝ) ≤ M ^ 2 := by positivity
  have hz : (2 / (gamma + 1)) * (1 + 0.5 * (gamma - 1) * M ^ 2) =
      (1 - (gamma - 1) / (gamma + 1)) + (gamma - 1) / (gamma + 1) * M ^ 2 := by
    field_simp
    ring
  have hB := rpow_lt_linear_interp ((gamma - 1) / (gamma + 1)) (M ^ 2) hp0 hp1 ht
  have hepos : 0 < (gamma + 1) / (2 * (gamma - 1)) := by positivity
  have hcore : M < ((2 / (gamma + 1)) * (1 + 0.5 * (gamma - 1) * M ^ 2)) ^
      ((gamma + 1) / (2 * (gamma - 1))) := by
    have hlt : (M ^ 2) ^ ((gamma - 1) / (gamma + 1)) <
        (2 / (gamma + 1)) * (1 + 0.5 * (gamma - 1) * M ^ 2) := by rw [hz]; exact hB
    have hstep := Real.rpow_lt_rpow (Real.rpow_nonneg ht0 _) hlt hepos
    have hid : ((M ^ 2) ^ ((gamma - 1) / (gamma + 1))) ^ ((gamma + 1) / (2 * (gamma - 1))) = M := by
      rw [← Real.rpow_natCast M 2, ← Real.rpow_mul (le_of_lt hM0), ← Real.rpow_mul (le_of_lt hM0)]
      rw [show ((2 : ℕ) : ℝ) * ((gamma - 1) / (gamma + 1)) * ((gamma + 1) / (2 * (gamma - 1))) = 1
        from by field_simp]
      exact Real.rpow_one M
    rw [hid] at hstep
    exact hstep
  have h1M : (0 : ℝ) < 1 / M := by positivity
  calc (1 : ℝ) = 1 / M * M := by field_simp
    _ < 1 / M * (((2 / (gamma + 1)) * (1 + 0.5 * (gamma - 1) * M ^ 2)) ^
        ((gamma + 1) / (2 * (gamma - 1)))) := by
        exact mul_lt_mul_of_pos_left hcore h1M

/-- `moc.mach_from_area_ratio` returns exactly `1` at area ratio `1`. -/
theorem moc_mach_from_area_ratio_one (gamma : ℝ) (hg : 1 < gamma) :
    Moc.mach_from_area_ratio 1 gamma = 1 := by
  unfold Moc.mach_from_area_ratio
  have hex : ∃ M : ℝ, 1 ≤ M ∧ Moc.areaOfMach M gamma = 1 :=
    ⟨1, le_refl 1, areaOfMach_one gamma hg⟩
  rw [dif_pos hex]
  obtain ⟨h1, h2⟩ := hex.choose_spec
  rcases eq_or_lt_of_le h1 with h | h
  · exact h.symm
  · exact absurd (h2 ▸ areaOfMach_gt_one gamma _ hg h) (lt_irrefl 1)

/-- The reparametrized Prandtl-Meyer core `k·arctan(u/k) − arctan(u)`. -/
def pmCore (k u : ℝ) : ℝ := k * Real.arctan (u / k) - Real.arctan u

/-- `pmCore k` is strictly increasing on `[0, ∞)` for `k > 1`. -/
theorem pmCore_strictMonoOn (k : ℝ) (hk : 1 < k) : StrictMonoOn (pmCore k) (Set.Ici 0) := by
  have hk0 : (0 : ℝ) < k := lt_trans one_pos hk
  apply strictMonoOn_of_deriv_pos (convex_Ici 0)
  · unfold pmCore
    apply ContinuousOn.sub
    · exact (continuous_const.mul (Real.continuous_arctan.comp (continuous_id.div_const k))).continuousOn
    · exact Real.continuous_arctan.continuousOn
  · intro x hx
    rw [interior_Ici] at hx
    have h1 : HasDerivAt (fun u : ℝ => Real.arctan (u / k)) (1 / (1 + (x / k) ^ 2) * (1 / k)) x :=
      (Real.hasDerivAt_arctan (x / k)).comp x ((hasDerivAt_id x).div_const k)
    have hd : HasDerivAt (pmCore k)
        (k * (1 / (1 + (x / k) ^ 2) * (1 / k)) - 1 / (1 + x ^ 2)) x := by
      unfold pmCore
      exact (h1.const_mul k).sub (Real.hasDerivAt_arctan x)
    rw [hd.deriv]
    have hxk2 : (x / k) ^ 2 < x ^ 2 := by
      apply pow_lt_pow_left₀ (div_lt_self hx hk) (le_of_lt (div_pos hx hk0))
      norm_num
    have hden : (0 : ℝ) < 1 + (x / k) ^ 2 := by positivity
    have hfrac : 1 / (1 + x ^ 2) < 1 / (1 + (x / k) ^ 2) :=
      one_div_lt_one_div_of_lt hden (by linarith)
    have hcanc : k * (1 / (1 + (x / k) ^ 2) * (1 / k)) = 1 / (1 + (x / k) ^ 2) := by
      field_simp
      ring
    rw [hcanc]
    linarith

/-- The Prandtl-Meyer function as `pmCore` at `k = sqrt((γ+1)/(γ−1))`,
`u = sqrt(M²−1)`. -/
theorem prandtl_meyer_eq_pmCore (gamma M : ℝ) (hg : 1 < gamma) (hM : 1 ≤ M) :
    Moc.prandtl_meyer M gamma =
      pmCore (Real.sqrt ((gamma + 1) / (gamma - 1))) (Real.sqrt (M ^ 2 - 1)) := by
  unfold Moc.prandtl_meyer pmCore
  have hgp : (0 : ℝ) < gamma + 1 := by linarith
  have hgm : (0 : ℝ) < gamma - 1 := by linarith
  have hM2 : (0 : ℝ) ≤ M ^ 2 - 1 := by nlinarith
  have h1 : (gamma - 1) / (gamma + 1) * (M ^ 2 - 1) = (M ^ 2 - 1) / ((gamma + 1) / (gamma - 1)) := by
    field_simp
    ring
  rw [h1, Real.sqrt_div hM2]

/-- `ν(1) = 0`. -/
theorem prandtl_meyer_one (gamma : ℝ) : Moc.prandtl_meyer 1 gamma = 0 := by
  unfold Moc.prandtl_meyer
  norm_num

/-- The Prandtl-Meyer function is strictly increasing in `M` on `[1, ∞)`. -/
theorem prandtl_meyer_strictMonoOn (gamma : ℝ) (hg : 1 < gamma) :
    StrictMonoOn (fun M => Moc.prandtl_meyer M gamma) (Set.Ici 1) := by
  intro a ha b hb hab
  simp only
  rw [prandtl_meyer_eq_pmCore gamma a hg ha, prandtl_meyer_eq_pmCore gamma b hg hb]
  have hk : 1 < Real.sqrt ((gamma + 1) / (gamma - 1)) := by
    apply (Real.lt_sqrt (by norm_num)).mpr
    rw [lt_div_iff₀ (by linarith : (0:ℝ) < gamma - 1)]
    nlinarith
  apply pmCore_strictMonoOn _ hk (Real.sqrt_nonneg _) (Real.sqrt_nonneg _)
  apply Real.sqrt_lt_sqrt (by nlinarith [Set.mem_Ici.mp ha])
  have ha1 := Set.mem_Ici.mp ha
  nlinarith

/-- `inverse_prandtl_meyer 0 γ = 1`. -/
theorem inverse_prandtl_meyer_zero (gamma : ℝ) (hg : 1 < gamma) :
    Moc.inverse_prandtl_meyer 0 gamma = 1 := by
  unfold Moc.inverse_prandtl_meyer
  have hex : ∃ M : ℝ, 1 ≤ M ∧ Moc.prandtl_meyer M gamma = 0 :=
    ⟨1, le_refl 1, prandtl_meyer_one gamma⟩
  rw [dif_pos hex]
  obtain ⟨h1, h2⟩ := hex.choose_spec
  rcases eq_or_lt_of_le h1 with h | h
  · exact h.symm
  · exfalso
    have := prandtl_meyer_strictMonoOn gamma hg Set.left_mem_Ici
      (Set.mem_Ici.mpr (le_of_lt h)) h
    simp only [prandtl_meyer_one, h2] at this
    exact lt_irrefl 0 this

/-- At area ratio `1` the characteristic fan has zero opening angle. -/
theorem moc_theta_max_one (gamma : ℝ) (hg : 1 < gamma) : Moc.theta_max 1 gamma = 0 := by
  unfold Moc.theta_max
  rw [moc_mach_from_area_ratio_one gamma hg, prandtl_meyer_one]
  norm_num

/-- All fan angles vanish at area ratio `1`. -/
theorem moc_thetaF_one (gamma : ℝ) (hg : 1 < gamma) (N i : ℕ) :
    Moc.thetaF 1 gamma N i = 0 := by
  unfold Moc.thetaF
  rw [moc_theta_max_one gamma hg]
  unfold linF
  simp

/-- All wall steps vanish at area ratio `1`. -/
theorem moc_dsF_one (gamma : ℝ) (hg : 1 < gamma) (N : ℕ) (R_t : ℝ) (i : ℕ) :
    Moc.dsF 1 gamma N R_t i = 0 := by
  unfold Moc.dsF
  rw [moc_thetaF_one gamma hg N i, moc_thetaF_one gamma hg N (i - 1)]
  simp

/-- At area ratio `1` the marched MOC radius is constantly `R_throat`. -/
theorem moc_r_wall_one (gamma : ℝ) (hg : 1 < gamma) (N : ℕ) (R_t : ℝ) (i : ℕ) :
    Moc.r_wall 1 gamma N R_t i = R_t := by
  induction i with
  | zero => rfl
  | succ k ih =>
    show Moc.r_wall 1 gamma N R_t k + Moc.dsF 1 gamma N R_t (k + 1) *
      Real.sin (Moc.thetaF 1 gamma N (k + 1)) = R_t
    rw [ih, moc_dsF_one gamma hg N R_t (k + 1)]
    ring

/-- At area ratio `1` the marched MOC abscissa is constantly `0`. -/
theorem moc_x_wall_one (gamma : ℝ) (hg : 1 < gamma) (N : ℕ) (R_t : ℝ) (i : ℕ) :
    Moc.x_wall 1 gamma N R_t i = 0 := by
  induction i with
  | zero => rfl
  | succ k ih =>
    show Moc.x_wall 1 gamma N R_t k + Moc.dsF 1 gamma N R_t (k + 1) *
      Real.cos (Moc.thetaF 1 gamma N (k + 1)) = 0
    rw [ih, moc_dsF_one gamma hg N R_t (k + 1)]
    ring

/-- C5 counterexample: at `area_ratio = 1.0`, throat radius `1` and the
default `N = 100`, `percent_bell = 80`, the bell generator raises a
singular-matrix error (`none`) — it does not return a degenerate contour. -/
theorem claim_C5_counterexample :
    bell_nozzle ⟨none, none, none, some 1, none, none, none⟩ (some 1) 100 80 = none :=
  bell_singular_at_unit_area_ratio _ rfl _ _ _

/-- C5 (amended): at `area_ratio = 1.0` the conical and MOC generators do
return the degenerate contour with constant radius `R_throat` and the
derived exit Mach number is exactly `1.0`; but the bell and Rao generators
raise a singular-matrix error and the TIC generator raises inside
CubicSpline's strictly-increasing validation (all modelled as `none`). -/
theorem claim_C5_amended (d : CeaData) (g R_t : ℝ) (N : ℕ)
    (spline : Contour → ℝ → ℝ) (pct tn te trunc : ℝ)
    (hAR : d.AeAt = some 1) (hgam : d.gamma = some g) (hg : 1 < g)
    (_hR : 0 < R_t) (hN : 2 ≤ N) :
    (∀ i, (conical_nozzle d 15 (some R_t) N).r i = R_t) ∧
    (∀ i, (moc_nozzle d (some R_t) N).r i = R_t) ∧
    (get_throat_properties d).m_exit = 1 ∧
    bell_nozzle d (some R_t) N pct = none ∧
    rao_optimum_nozzle d (some R_t) N tn te = none ∧
    truncated_ideal_contour spline d (some R_t) N trunc = none := by
  have hmach : (get_throat_properties d).m_exit = 1 := by
    simp only [get_throat_properties, hAR, hgam, Option.getD_some]
    exact moc_mach_from_area_ratio_one g hg
  refine ⟨?_, ?_, hmach, bell_singular_at_unit_area_ratio d hAR _ _ _,
    rao_singular_at_unit_area_ratio d hAR _ _ _ _, ?_⟩
  · intro i
    unfold conical_nozzle
    simp only [get_throat_properties, hAR, hgam, Option.getD_some, resolveRthroat,
      Real.sqrt_one, mul_one, sub_self, zero_div]
    unfold linF
    split_ifs <;> simp
  · intro i
    unfold moc_nozzle
    simp only [get_throat_properties, hAR, hgam, Option.getD_some, resolveRthroat]
    exact moc_r_wall_one g hg N R_t i
  · unfold truncated_ideal_contour
    simp only [get_throat_properties, hAR, hgam, Option.getD_some, resolveRthroat]
    rw [if_neg]
    intro hmono
    have h01 := hmono 0 (show 0 + 1 < N by omega)
    have hx0 : (Moc.generate_moc_contour 1 g N R_t).x 0 = 0 := moc_x_wall_one g hg N R_t 0
    have hx1 : (Moc.generate_moc_contour 1 g N R_t).x (0 + 1) = 0 := moc_x_wall_one g hg N R_t 1
    rw [hx0, hx1] at h01
    exact lt_irrefl 0 h01

/-- C5 amended witness: the theorem applied at a concrete record with
`gamma = 3/2`, `area_ratio = 1`, throat radius `1`, `N = 2`. -/
theorem claim_C5_amended_witness :
    (⟨some (3/2), none, none, some 1, none, none, none⟩ : CeaData).AeAt = some 1 ∧
    (⟨some (3/2), none, none, some 1, none, none, none⟩ : CeaData).gamma = some (3/2) ∧
    (1 : ℝ) < 3/2 ∧ (0 : ℝ) < 1 ∧ 2 ≤ 2 ∧
    ((∀ i, (conical_nozzle ⟨some (3/2), none, none, some 1, none, none, none⟩ 15 (some 1) 2).r i = 1) ∧
     (∀ i, (moc_nozzle ⟨some (3/2), none, none, some 1, none, none, none⟩ (some 1) 2).r i = 1) ∧
     (get_throat_properties ⟨some (3/2), none, none, some 1, none, none, none⟩).m_exit = 1 ∧
     bell_nozzle ⟨some (3/2), none, none, some 1, none, none, none⟩ (some 1) 2 80 = none ∧
     rao_optimum_nozzle ⟨some (3/2), none, none, some 1, none, none, none⟩ (some 1) 2 30 7 = none ∧
     truncated_ideal_contour (fun _ _ => 0) ⟨some (3/2), none, none, some 1, none, none, none⟩
       (some 1) 2 (8/10) = none) :=
  ⟨rfl, rfl, by norm_num, by norm_num, by norm_num,
    claim_C5_amended ⟨some (3/2), none, none, some 1, none, none, none⟩ (3/2) 1 2
      (fun _ _ => 0) 80 30 7 (8/10) rfl rfl (by norm_num) (by norm_num) (by norm_num)⟩

/-- The Prandtl-Meyer function tends to `ν_max(γ)` as `M → ∞`. -/
theorem prandtl_meyer_tendsto_nu_max (gamma : ℝ) (hg : 1 < gamma) :
    Filter.Tendsto (fun M => Moc.prandtl_meyer M gamma) Filter.atTop (nhds (nu_max gamma)) := by
  have hgm : (0 : ℝ) < (gamma - 1) / (gamma + 1) := div_pos (by linarith) (by linarith)
  have sqrt_tendsto : Filter.Tendsto Real.sqrt Filter.atTop Filter.atTop := by
    apply Filter.tendsto_atTop_atTop.mpr
    intro b
    refine ⟨b ^ 2, fun x hx => ?_⟩
    calc b ≤ |b| := le_abs_self b
      _ = Real.sqrt (b ^ 2) := (Real.sqrt_sq_eq_abs b).symm
      _ ≤ Real.sqrt x := Real.sqrt_le_sqrt hx
  have hM2 : Filter.Tendsto (fun M : ℝ => M ^ 2 - 1) Filter.atTop Filter.atTop := by
    have := Filter.tendsto_atTop_add_const_right Filter.atTop (-1 : ℝ)
      (Filter.tendsto_pow_atTop (two_ne_zero))
    exact this.congr fun x => by ring
  have hscaled : Filter.Tendsto (fun M : ℝ => (gamma - 1) / (gamma + 1) * (M ^ 2 - 1))
      Filter.atTop Filter.atTop := hM2.const_mul_atTop hgm
  have harct : Filter.Tendsto Real.arctan Filter.atTop (nhds (Real.pi / 2)) :=
    Real.tendsto_arctan_atTop.mono_right nhdsWithin_le_nhds
  have h2 : Filter.Tendsto
      (fun M : ℝ => Real.arctan (Real.sqrt ((gamma - 1) / (gamma + 1) * (M ^ 2 - 1))))
      Filter.atTop (nhds (Real.pi / 2)) :=
    harct.comp (sqrt_tendsto.comp hscaled)
  have h4 : Filter.Tendsto (fun M : ℝ => Real.arctan (Real.sqrt (M ^ 2 - 1)))
      Filter.atTop (nhds (Real.pi / 2)) := harct.comp (sqrt_tendsto.comp hM2)
  have h5 := (h2.const_mul (Real.sqrt ((gamma + 1) / (gamma - 1)))).sub h4
  have : Real.sqrt ((gamma + 1) / (gamma - 1)) * (Real.pi / 2) - Real.pi / 2 = nu_max gamma := by
    unfold nu_max
    ring
  rw [this] at h5
  exact h5

/-- Every angle in `(0, ν_max(γ))` is attained by the Prandtl-Meyer
function at some `M ≥ 1`. -/
theorem prandtl_meyer_surj (gamma nu : ℝ) (hg : 1 < gamma) (h0 : 0 < nu)
    (hmax : nu < nu_max gamma) : ∃ M : ℝ, 1 ≤ M ∧ Moc.prandtl_meyer M gamma = nu := by
  obtain ⟨X, hXnu, hX1⟩ :=
    (((prandtl_meyer_tendsto_nu_max gamma hg).eventually_const_lt hmax).and
      (Filter.eventually_ge_atTop (1 : ℝ))).exists
  have hcont : ContinuousOn (fun M => Moc.prandtl_meyer M gamma) (Set.Icc 1 X) := by
    unfold Moc.prandtl_meyer
    apply ContinuousOn.sub
    · exact (continuous_const.mul (Real.continuous_arctan.comp (Real.continuous_sqrt.comp
        (continuous_const.mul ((continuous_pow 2).sub continuous_const))))).continuousOn
    · exact (Real.continuous_arctan.comp (Real.continuous_sqrt.comp
        ((continuous_pow 2).sub continuous_const))).continuousOn
  have hsub := intermediate_value_Icc hX1 hcont
  have hnu_mem : nu ∈ Set.Icc (Moc.prandtl_meyer 1 gamma) (Moc.prandtl_meyer X gamma) := by
    rw [prandtl_meyer_one]
    exact ⟨le_of_lt h0, le_of_lt hXnu⟩
  obtain ⟨M, hM, hPM⟩ := hsub hnu_mem
  exact ⟨M, hM.1, hPM⟩

/-- C9: the Prandtl-Meyer round trip
`prandtl_meyer(inverse_prandtl_meyer(ν, γ), γ) = ν` holds (exactly, hence
within the claimed 1e-4) for every `γ ∈ (1, 1.7]` and `ν ∈ (0, ν_max(γ))`,
with the fsolve-based inverse modelled as an exact root selector. -/
theorem claim_C9_roundtrip (gamma nu : ℝ) (hg1 : 1 < gamma) (_hg2 : gamma ≤ 1.7)
    (h0 : 0 < nu) (hmax : nu < nu_max gamma) :
    |Moc.prandtl_meyer (Moc.inverse_prandtl_meyer nu gamma) gamma - nu| ≤ 1e-4 := by
  unfold Moc.inverse_prandtl_meyer
  have hex := prandtl_meyer_surj gamma nu hg1 h0 hmax
  rw [dif_pos hex, hex.choose_spec.2]
  simp
  norm_num

/-- C9 witness: the round trip applied at `γ = 3/2`, `ν = 1/10`. -/
theorem claim_C9_roundtrip_witness :
    (1 : ℝ) < 3/2 ∧ (3/2 : ℝ) ≤ 1.7 ∧ (0 : ℝ) < 1/10 ∧ (1/10 : ℝ) < nu_max (3/2) ∧
    |Moc.prandtl_meyer (Moc.inverse_prandtl_meyer (1/10) (3/2)) (3/2) - 1/10| ≤ 1e-4 := by
  have hmax : (1/10 : ℝ) < nu_max (3/2) := by
    unfold nu_max
    have h5 : ((3/2 : ℝ) + 1) / (3/2 - 1) = 5 := by norm_num
    rw [h5]
    have hs : (2 : ℝ) ≤ Real.sqrt 5 := by
      rw [Real.le_sqrt (by norm_num) (by norm_num)]
      norm_num
    nlinarith [Real.pi_gt_three]
  exact ⟨by norm_num, by norm_num, by norm_num, hmax,
    claim_C9_roundtrip (3/2) (1/10) (by norm_num) (by norm_num) (by norm_num) hmax⟩

/-! ## Exact evaluation of the MOC march at `γ = 5/3`, `AR = 4/√5` -/

/-- At `γ = 5/3` the area-Mach relation is the rational function
`(3 + M²)²/(16·M)` (the rpow exponent is exactly `2`). -/
theorem areaOfMach_five_thirds (M : ℝ) (hM : 0 < M) :
    Moc.areaOfMach M (5 / 3) = (3 + M ^ 2) ^ 2 / (16 * M) := by
  unfold Moc.areaOfMach
  have hexp : (((5 : ℝ) / 3 + 1) / (2 * (5 / 3 - 1))) = ((2 : ℕ) : ℝ) := by norm_num
  rw [hexp, Real.rpow_natCast]
  have hMne : M ≠ 0 := ne_of_gt hM
  field_simp
  ring

/-- The γ = 5/3 area-Mach relation is strictly increasing on `[1, ∞)`. -/
theorem areaOfMach_lt_five_thirds (a b : ℝ) (ha : 1 ≤ a) (hab : a < b) :
    Moc.areaOfMach a (5 / 3) < Moc.areaOfMach b (5 / 3) := by
  have ha0 : 0 < a := lt_of_lt_of_le one_pos ha
  have hb0 : 0 < b := lt_trans ha0 hab
  rw [areaOfMach_five_thirds a ha0, areaOfMach_five_thirds b hb0,
    div_lt_div_iff₀ (by positivity) (by positivity)]
  have hb1 : 1 < b := lt_of_le_of_lt ha hab
  have hab1 : 1 < a * b := by nlinarith
  have hsum : 3 ≤ a ^ 2 + a * b + b ^ 2 := by nlinarith
  have hprod : 3 ≤ (a * b) * (a ^ 2 + a * b + b ^ 2) := by nlinarith
  have key : 0 < (b - a) * (6 * (a * b) + (a * b) * (a ^ 2 + a * b + b ^ 2) - 9) :=
    mul_pos (sub_pos.mpr hab) (by nlinarith)
  nlinarith [key]

/-- `1 ≤ √5`. -/
theorem one_le_sqrt_five : (1 : ℝ) ≤ Real.sqrt 5 := by
  rw [show (1 : ℝ) = Real.sqrt 1 from Real.sqrt_one.symm]
  exact Real.sqrt_le_sqrt (by norm_num)

/-- `√4 = 2`. -/
theorem sqrt_four_eq_two : Real.sqrt 4 = 2 := by
  rw [show (4 : ℝ) = 2 ^ 2 by norm_num, Real.sqrt_sq (by norm_num : (0 : ℝ) ≤ 2)]

/-- `A/A*(√5) = 4/√5` at `γ = 5/3`. -/
theorem areaOfMach_sqrt_five : Moc.areaOfMach (Real.sqrt 5) (5 / 3) = 4 / Real.sqrt 5 := by
  have h0 : (0 : ℝ) < Real.sqrt 5 := lt_of_lt_of_le one_pos one_le_sqrt_five
  rw [areaOfMach_five_thirds _ h0, Real.sq_sqrt (by norm_num : (0 : ℝ) ≤ 5)]
  rw [show ((3 : ℝ) + 5) ^ 2 = 4 * 16 by norm_num]
  rw [show (4 : ℝ) * 16 / (16 * Real.sqrt 5) = 4 * (16 / 16) / Real.sqrt 5 by ring]
  norm_num

/-- The idealized fsolve of `moc.mach_from_area_ratio` returns exactly `√5`
at `AR = 4/√5`, `γ = 5/3`. -/
theorem moc_mach_sqrt_five :
    Moc.mach_from_area_ratio (4 / Real.sqrt 5) (5 / 3) = Real.sqrt 5 := by
  unfold Moc.mach_from_area_ratio
  have hex : ∃ M : ℝ, 1 ≤ M ∧ Moc.areaOfMach M (5 / 3) = 4 / Real.sqrt 5 :=
    ⟨Real.sqrt 5, one_le_sqrt_five, areaOfMach_sqrt_five⟩
  rw [dif_pos hex]
  obtain ⟨h1, h2⟩ := hex.choose_spec
  rcases lt_trichotomy hex.choose (Real.sqrt 5) with h | h | h
  · exfalso
    have := areaOfMach_lt_five_thirds _ _ h1 h
    rw [h2, areaOfMach_sqrt_five] at this
    exact lt_irrefl _ this
  · exact h
  · exfalso
    have := areaOfMach_lt_five_thirds _ _ one_le_sqrt_five h
    rw [h2, areaOfMach_sqrt_five] at this
    exact lt_irrefl _ this

/-- `ν(√5) = π/2 − arctan 2` at `γ = 5/3`. -/
theorem prandtl_meyer_sqrt_five :
    Moc.prandtl_meyer (Real.sqrt 5) (5 / 3) = Real.pi / 2 - Real.arctan 2 := by
  unfold Moc.prandtl_meyer
  have h5 : Real.sqrt 5 ^ 2 = 5 := Real.sq_sqrt (by norm_num)
  rw [h5]
  have h4 : ((5 : ℝ) / 3 + 1) / (5 / 3 - 1) = 4 := by norm_num
  have hinner : ((5 : ℝ) / 3 - 1) / (5 / 3 + 1) * (5 - 1) = 1 := by norm_num
  rw [h4, hinner, show (5 : ℝ) - 1 = 4 by norm_num, sqrt_four_eq_two, Real.sqrt_one,
    Real.arctan_one]
  ring

/-- If `ν(M) = ν` with `M ≥ 1` then the idealized inverse returns exactly `M`. -/
theorem inverse_prandtl_meyer_of_root (gamma nu M : ℝ) (hg : 1 < gamma) (hM : 1 ≤ M)
    (hval : Moc.prandtl_meyer M gamma = nu) : Moc.inverse_prandtl_meyer nu gamma = M := by
  unfold Moc.inverse_prandtl_meyer
  have hex : ∃ M' : ℝ, 1 ≤ M' ∧ Moc.prandtl_meyer M' gamma = nu := ⟨M, hM, hval⟩
  rw [dif_pos hex]
  obtain ⟨h1, h2⟩ := hex.choose_spec
  exact (prandtl_meyer_strictMonoOn gamma hg).injOn (Set.mem_Ici.mpr h1)
    (Set.mem_Ici.mpr hM) (by simp only [h2, hval])

/-- The fan opening at `AR = 4/√5`, `γ = 5/3` is `(π/2 − arctan 2)/2`. -/
theorem moc_theta_max_53 :
    Moc.theta_max (4 / Real.sqrt 5) (5 / 3) = (Real.pi / 2 - Real.arctan 2) / 2 := by
  unfold Moc.theta_max
  rw [moc_mach_sqrt_five, prandtl_meyer_sqrt_five]

/-- With `N = 2` the two fan angles are `0` and `θ_max`. -/
theorem moc_thetaF_53_one :
    Moc.thetaF (4 / Real.sqrt 5) (5 / 3) 2 1 = (Real.pi / 2 - Real.arctan 2) / 2 := by
  unfold Moc.thetaF linF
  rw [moc_theta_max_53]
  norm_num

theorem moc_thetaF_53_zero : Moc.thetaF (4 / Real.sqrt 5) (5 / 3) 2 0 = 0 := by
  unfold Moc.thetaF linF
  norm_num

/-- The local Mach at the second fan station is again `√5`. -/
theorem moc_machF_53_one : Moc.machF (4 / Real.sqrt 5) (5 / 3) 2 1 = Real.sqrt 5 := by
  unfold Moc.machF
  rw [moc_thetaF_53_one, show 2 * ((Real.pi / 2 - Real.arctan 2) / 2) =
    Real.pi / 2 - Real.arctan 2 from by ring]
  exact inverse_prandtl_meyer_of_root (5 / 3) _ (Real.sqrt 5) (by norm_num)
    one_le_sqrt_five prandtl_meyer_sqrt_five

/-- `tan(arcsin(1/√5)) = 1/2`. -/
theorem tan_arcsin_inv_sqrt_five : Real.tan (Real.arcsin (1 / Real.sqrt 5)) = 1 / 2 := by
  rw [Real.tan_arcsin]
  have h5 : Real.sqrt 5 ^ 2 = 5 := Real.sq_sqrt (by norm_num)
  have harg : 1 - (1 / Real.sqrt 5) ^ 2 = 4 / 5 := by
    rw [div_pow, one_pow, h5]
    norm_num
  rw [harg, Real.sqrt_div (by norm_num : (0 : ℝ) ≤ 4) 5, sqrt_four_eq_two]
  have hs : Real.sqrt 5 ≠ 0 := by positivity
  field_simp

/-- The single wall step at `N = 2` is `2·θ_max` (for `R_throat = 1`). -/
theorem moc_dsF_53_one :
    Moc.dsF (4 / Real.sqrt 5) (5 / 3) 2 1 1 = 2 * ((Real.pi / 2 - Real.arctan 2) / 2) := by
  unfold Moc.dsF Moc.muF
  rw [moc_machF_53_one, moc_thetaF_53_one, moc_thetaF_53_zero, tan_arcsin_inv_sqrt_five]
  ring

/-- The exit radius marched by `generate_moc_contour` at `AR = 4/√5`,
`γ = 5/3`, `N = 2`, `R_throat = 1`. -/
theorem moc_r_wall_53_one :
    Moc.r_wall (4 / Real.sqrt 5) (5 / 3) 2 1 1 =
      1 + 2 * ((Real.pi / 2 - Real.arctan 2) / 2) *
        Real.sin ((Real.pi / 2 - Real.arctan 2) / 2) := by
  show Moc.r_wall (4 / Real.sqrt 5) (5 / 3) 2 1 0 +
      Moc.dsF (4 / Real.sqrt 5) (5 / 3) 2 1 1 * Real.sin (Moc.thetaF (4 / Real.sqrt 5) (5 / 3) 2 1) = _
  rw [moc_dsF_53_one, moc_thetaF_53_one]
  rfl

/-- C1 counterexample: (i) at `area_ratio = 1` (an admissible record) the
bell generator raises instead of returning a contour with the stated
endpoints, and (ii) at `area_ratio = 4/√5`, `γ = 5/3`, `R_throat = 1`,
`N = 2` the MOC contour's last radius misses `R_throat·√area_ratio` by more
than `1e-6` (≈ `1.107` vs `≈ 1.337`): `generate_moc_contour` does not
hard-set its exit radius. -/
theorem claim_C1_counterexample :
    bell_nozzle ⟨none, none, none, some 1, none, none, none⟩ (some 2) 5 80 = none ∧
    ¬ |(Moc.generate_moc_contour (4 / Real.sqrt 5) (5 / 3) 2 1).r 1 -
        1 * Real.sqrt (4 / Real.sqrt 5)| ≤ 1e-6 := by
  constructor
  · exact bell_singular_at_unit_area_ratio _ rfl _ _ _
  · have hr : (Moc.generate_moc_contour (4 / Real.sqrt 5) (5 / 3) 2 1).r 1 =
        1 + 2 * ((Real.pi / 2 - Real.arctan 2) / 2) *
          Real.sin ((Real.pi / 2 - Real.arctan 2) / 2) := moc_r_wall_53_one
    have hv0 : 0 ≤ (Real.pi / 2 - Real.arctan 2) / 2 := by
      have := Real.arctan_lt_pi_div_two 2
      linarith
    have hv8 : (Real.pi / 2 - Real.arctan 2) / 2 ≤ Real.pi / 8 := by
      have h12 : Real.arctan 1 ≤ Real.arctan 2 :=
        Real.arctan_strictMono.monotone (by norm_num : (1 : ℝ) ≤ 2)
      rw [Real.arctan_one] at h12
      linarith
    have hsin : Real.sin ((Real.pi / 2 - Real.arctan 2) / 2) ≤
        (Real.pi / 2 - Real.arctan 2) / 2 := Real.sin_le hv0
    have hub : (Moc.generate_moc_contour (4 / Real.sqrt 5) (5 / 3) 2 1).r 1 ≤
        1 + Real.pi ^ 2 / 32 := by
      rw [hr]
      nlinarith [hv0, hv8, hsin, Real.pi_pos]
    have hs5pos : (0 : ℝ) < Real.sqrt 5 := lt_of_lt_of_le one_pos one_le_sqrt_five
    have h54 : Real.sqrt 5 ≤ 9 / 4 := by
      calc Real.sqrt 5 ≤ Real.sqrt (81 / 16) := Real.sqrt_le_sqrt (by norm_num)
        _ = 9 / 4 := by
          rw [show (81 / 16 : ℝ) = (9 / 4) ^ 2 by norm_num,
            Real.sqrt_sq (by norm_num : (0 : ℝ) ≤ 9 / 4)]
    have htg : (4 : ℝ) / 3 ≤ Real.sqrt (4 / Real.sqrt 5) := by
      have hq : (16 : ℝ) / 9 ≤ 4 / Real.sqrt 5 := by
        rw [div_le_div_iff₀ (by norm_num) hs5pos]
        linarith
      rw [Real.le_sqrt (by norm_num) (by positivity)]
      calc ((4 : ℝ) / 3) ^ 2 = 16 / 9 := by norm_num
        _ ≤ 4 / Real.sqrt 5 := hq
    intro habs
    rw [abs_le] at habs
    have h1 := habs.1
    nlinarith [hub, htg, Real.pi_lt_d2, Real.pi_pos, h1]

/-- C1 (amended): for `area_ratio > 1` (at `area_ratio = 1` the bell and
Rao fits hit a singular matrix) the conical, bell, Rao and TIC generators
return contours whose first point is exactly `(0, R_throat)` and whose last
radius is exactly `R_throat·√area_ratio`, both hard-set; the MOC generator
hard-sets only its first point `(0, R_throat)` — its exit radius is the
marched approximation. -/
theorem claim_C1_amended (d : CeaData) (AR R_t : ℝ) (N : ℕ) (pct tn te trunc : ℝ)
    (spline : Contour → ℝ → ℝ)
    (hAR : d.AeAt = some AR) (h1 : 1 < AR) (hR : 0 < R_t) (hN : 2 ≤ N) (hpct : 0 < pct) :
    ((conical_nozzle d 15 (some R_t) N).x 0 = 0 ∧
      (conical_nozzle d 15 (some R_t) N).r 0 = R_t ∧
      (conical_nozzle d 15 (some R_t) N).r (N - 1) = R_t * Real.sqrt AR) ∧
    (∃ co, bell_nozzle d (some R_t) N pct = some co ∧
      co.x 0 = 0 ∧ co.r 0 = R_t ∧ co.r (N - 1) = R_t * Real.sqrt AR) ∧
    (∃ co, rao_optimum_nozzle d (some R_t) N tn te = some co ∧
      co.x 0 = 0 ∧ co.r 0 = R_t ∧ co.r (N - 1) = R_t * Real.sqrt AR) ∧
    (∀ co, truncated_ideal_contour spline d (some R_t) N trunc = some co →
      co.x 0 = 0 ∧ co.r 0 = R_t ∧ co.r (N - 1) = R_t * Real.sqrt AR) ∧
    ((moc_nozzle d (some R_t) N).x 0 = 0 ∧ (moc_nozzle d (some R_t) N).r 0 = R_t) := by
  have hsq : 1 < Real.sqrt AR := by
    rw [show (1 : ℝ) = Real.sqrt 1 from (Real.sqrt_one).symm]
    exact Real.sqrt_lt_sqrt (by norm_num) h1
  have htan := tan_radians_fifteen_pos
  have hLc : 0 < (R_t * Real.sqrt AR - R_t) / Real.tan (radians 15) := by
    apply div_pos
    · nlinarith
    · exact htan
  refine ⟨?_, ?_, ?_, ?_, ?_⟩
  · -- conical endpoints
    unfold conical_nozzle
    simp only [get_throat_properties, hAR, Option.getD_some, resolveRthroat]
    refine ⟨linF_zero _ _ _, ?_, ?_⟩
    · have h0 : ¬ (0 = N - 1) := by omega
      simp [h0]
    · simp
  · -- bell endpoints
    unfold bell_nozzle
    simp only [get_throat_properties, hAR, Option.getD_some, resolveRthroat]
    have hL : 0 < (R_t * Real.sqrt AR - R_t) / Real.tan (radians 15) * (pct / 100) :=
      mul_pos hLc (by linarith)
    set L := (R_t * Real.sqrt AR - R_t) / Real.tan (radians 15) * (pct / 100) with hLdef
    have hdne : det4 (0 : ℝ) 0 0 1 (L ^ 3) (L ^ 2) L 1 0 0 1 0 (3 * L ^ 2) (2 * L) 1 0 ≠ 0 := by
      rw [show det4 (0 : ℝ) 0 0 1 (L ^ 3) (L ^ 2) L 1 0 0 1 0 (3 * L ^ 2) (2 * L) 1 0 = -L ^ 4
        from by unfold det4; ring]
      exact neg_ne_zero.mpr (by positivity)
    obtain ⟨v, hsolve⟩ : ∃ v, solve4 (0 : ℝ) 0 0 1 (L ^ 3) (L ^ 2) L 1 0 0 1 0
        (3 * L ^ 2) (2 * L) 1 0 R_t (R_t * Real.sqrt AR)
        (Real.tan (bell_theta_initial pct)) (Real.tan (bell_theta_exit pct)) = some v := by
      unfold solve4
      rw [if_neg hdne]
      exact ⟨_, rfl⟩
    obtain ⟨ca, cb, cc, cd⟩ := v
    rw [hsolve]
    refine ⟨_, rfl, linF_zero _ _ _, ?_, ?_⟩
    · have h0 : ¬ (0 = N - 1) := by omega
      simp [h0]
    · simp
  · -- Rao endpoints
    unfold rao_optimum_nozzle
    simp only [get_throat_properties, hAR, Option.getD_some, resolveRthroat]
    have hL : 0 < (0.8 : ℝ) * ((R_t * Real.sqrt AR - R_t) / Real.tan (radians 15)) := by
      apply mul_pos (by norm_num) hLc
    set L := (0.8 : ℝ) * ((R_t * Real.sqrt AR - R_t) / Real.tan (radians 15)) with hLdef
    have hdne : det4 (0 : ℝ) 0 0 1 0 0 1 0 (L ^ 3) (L ^ 2) L 1 (3 * L ^ 2) (2 * L) 1 0 ≠ 0 := by
      rw [show det4 (0 : ℝ) 0 0 1 0 0 1 0 (L ^ 3) (L ^ 2) L 1 (3 * L ^ 2) (2 * L) 1 0 = L ^ 4
        from by unfold det4; ring]
      positivity
    obtain ⟨v, hsolve⟩ : ∃ v, solve4 (0 : ℝ) 0 0 1 0 0 1 0 (L ^ 3) (L ^ 2) L 1
        (3 * L ^ 2) (2 * L) 1 0 R_t (Real.tan (radians tn * 0.5))
        (R_t * Real.sqrt AR) (Real.tan (radians te)) = some v := by
      unfold solve4
      rw [if_neg hdne]
      exact ⟨_, rfl⟩
    obtain ⟨ca, cb, cc, cd⟩ := v
    rw [hsolve]
    refine ⟨_, rfl, linF_zero _ _ _, ?_, ?_⟩
    · have h0 : ¬ (0 = N - 1) := by omega
      simp [h0]
    · simp
  · -- TIC endpoints, conditional on a successful spline validation
    intro co hco
    unfold truncated_ideal_contour at hco
    simp only [get_throat_properties, hAR, Option.getD_some, resolveRthroat] at hco
    by_cases hcond : strictIncrOn
        (Moc.generate_moc_contour AR (match d.gamma with
          | some g => g
          | none => match d.GAMMAs with
            | some g => g
            | none => 1.2) N R_t).x
        (Moc.generate_moc_contour AR (match d.gamma with
          | some g => g
          | none => match d.GAMMAs with
            | some g => g
            | none => 1.2) N R_t).len
    · rw [if_pos hcond] at hco
      injection hco with hco
      subst hco
      refine ⟨linF_zero _ _ _, ?_, ?_⟩
      · simp
      · have h0 : ¬ (N - 1 = 0) := by omega
        simp [h0]
    · rw [if_neg hcond] at hco
      exact Option.noConfusion hco
  · -- MOC first point
    exact ⟨rfl, rfl⟩

/-- C1 amended witness: the theorem applied at `area_ratio = 4`, throat
radius `1`, `N = 2`, `percent_bell = 80`. -/
theorem claim_C1_amended_witness :
    (⟨none, none, none, some 4, none, none, none⟩ : CeaData).AeAt = some 4 ∧
    (1 : ℝ) < 4 ∧ (0 : ℝ) < 1 ∧ 2 ≤ 2 ∧ (0 : ℝ) < 80 ∧
    (((conical_nozzle ⟨none, none, none, some 4, none, none, none⟩ 15 (some 1) 2).x 0 = 0 ∧
      (conical_nozzle ⟨none, none, none, some 4, none, none, none⟩ 15 (some 1) 2).r 0 = 1 ∧
      (conical_nozzle ⟨none, none, none, some 4, none, none, none⟩ 15 (some 1) 2).r (2 - 1) =
        1 * Real.sqrt 4) ∧
    (∃ co, bell_nozzle ⟨none, none, none, some 4, none, none, none⟩ (some 1) 2 80 = some co ∧
      co.x 0 = 0 ∧ co.r 0 = 1 ∧ co.r (2 - 1) = 1 * Real.sqrt 4) ∧
    (∃ co, rao_optimum_nozzle ⟨none, none, none, some 4, none, none, none⟩ (some 1) 2 30 7 =
        some co ∧ co.x 0 = 0 ∧ co.r 0 = 1 ∧ co.r (2 - 1) = 1 * Real.sqrt 4) ∧
    (∀ co, truncated_ideal_contour (fun _ _ => 0) ⟨none, none, none, some 4, none, none, none⟩
        (some 1) 2 (8 / 10) = some co →
      co.x 0 = 0 ∧ co.r 0 = 1 ∧ co.r (2 - 1) = 1 * Real.sqrt 4) ∧
    ((moc_nozzle ⟨none, none, none, some 4, none, none, none⟩ (some 1) 2).x 0 = 0 ∧
      (moc_nozzle ⟨none, none, none, some 4, none, none, none⟩ (some 1) 2).r 0 = 1)) :=
  ⟨rfl, by norm_num, by norm_num, by norm_num, by norm_num,
    claim_C1_amended ⟨none, none, none, some 4, none, none, none⟩ 4 1 2 80 30 7 (8 / 10)
      (fun _ _ => 0) rfl (by norm_num) (by norm_num) (by norm_num) (by norm_num)⟩

end CeaAnalyzer
